import Mathlib

/-!
Verification of the capi2argo-cluster-operator reconciliation engine.

This development shallowly embeds the controller code (controllers package:
the secret reconciler, the CAPI kubeconfig parser and the Argo cluster
builder) into Lean and proves the specified properties about it.

Strings are Lean strings; Go byte slices holding text are modelled as
strings.  Go maps (labels, data) are modelled as association lists with
Go-map semantics for lookup, insert and delete; iteration over a map is
modelled as iteration over the list of pairs.  The Kubernetes object store
is modelled as lists of secrets and cluster resources; Get/List/Create/
Update/Delete are the evident operations on them, with not-found as the
only fetch failure.
-/

deriving instance DecidableEq for Except

namespace Caco

/-! ## Go string helpers (strings.HasPrefix / HasSuffix / TrimSuffix / Split / TrimSpace) -/

/-- strings.HasPrefix. -/
def goStartsWith (s p : String) : Bool := p.data.isPrefixOf s.data

/-- strings.HasSuffix. -/
def goEndsWith (s p : String) : Bool := p.data.isSuffixOf s.data

/-- strings.TrimSuffix. -/
def goTrimSuffix (s suf : String) : String :=
  if goEndsWith s suf then ⟨s.data.take (s.data.length - suf.data.length)⟩ else s

/-- Index of the first occurrence of sep in s, if any. -/
def findSubIdx (s sep : List Char) : Option Nat :=
  if sep.isPrefixOf s then some 0
  else
    match s with
    | [] => none
    | _ :: t => (findSubIdx t sep).map (fun i => i + 1)

/-- Fuelled worker for strings.Split: split s around each occurrence of sep. -/
def splitCharsAux (fuel : Nat) (s sep : List Char) : List (List Char) :=
  match fuel with
  | 0 => [s]
  | fuel' + 1 =>
    match findSubIdx s sep with
    | none => [s]
    | some i => s.take i :: splitCharsAux fuel' (s.drop (i + sep.length)) sep

/-- strings.Split on character lists (sep nonempty in all uses). -/
def splitChars (s sep : List Char) : List (List Char) :=
  if sep = [] then [s] else splitCharsAux (s.length + 1) s sep

/-- strings.Split. -/
def goSplit (s sep : String) : List String :=
  (splitChars s.data sep.data).map (fun l => ⟨l⟩)

/-- Whitespace recognised by strings.TrimSpace (ASCII range). -/
def isSpaceChar (c : Char) : Bool :=
  c = ' ' || c = '\t' || c = '\n' || c = '\r' || c = '\x0b' || c = '\x0c'

/-- strings.TrimSpace. -/
def goTrimSpace (s : String) : String :=
  ⟨((s.data.dropWhile isSpaceChar).reverse.dropWhile isSpaceChar).reverse⟩

/-! ## Go maps as association lists -/

/-- A Go map from strings to strings (labels, secret data). -/
abbrev Smap := List (String × String)

/-- Map lookup (first binding wins; maps built by set/erase have unique keys). -/
def Smap.find : Smap → String → Option String
  | [], _ => none
  | (k', v) :: t, k => if k' = k then some v else Smap.find t k

/-- Go map delete: remove every binding of k. -/
def Smap.erase (m : Smap) (k : String) : Smap :=
  m.filter (fun p => p.fst ≠ k)

/-- Go map insert m[k] = v. -/
def Smap.set (m : Smap) (k v : String) : Smap :=
  m.erase k ++ [(k, v)]

/-- All keys of the map distinct, as holds for every real Go map. -/
def Smap.NodupKeys (m : Smap) : Prop := (m.map Prod.fst).Nodup

/-! ## Data model: Kubernetes objects (as far as the controller consults them) -/

/-- types.NamespacedName. -/
structure NN where
  name : String
  ns : String
deriving DecidableEq, Repr

/-- A Kubernetes Secret (metadata.name/namespace, type, labels, data).
Data values are the decoded byte payloads, modelled as strings. -/
structure KSecret where
  nn : NN
  secretType : String
  labels : Smap
  data : Smap
deriving DecidableEq, Repr

/-- A CAPI Cluster resource (the owning resource); only name/namespace and
labels are consulted by the controller. -/
structure KCluster where
  nn : NN
  labels : Smap
deriving DecidableEq, Repr

/-- The object store: all secrets and all CAPI cluster resources. -/
structure Store where
  secrets : List KSecret
  clusters : List KCluster
deriving DecidableEq, Repr

/-- client.Get on secrets: first record with the requested identity. -/
def findSecret (l : List KSecret) (n : NN) : Option KSecret :=
  l.find? (fun s => s.nn == n)

/-- client.Get on CAPI cluster resources. -/
def findCluster (l : List KCluster) (n : NN) : Option KCluster :=
  l.find? (fun c => c.nn == n)

/-! ## Errors

Modelled from the spec: the sentinel error values of the validation
taxonomy (WrongRecordType / WrongRecordKey / InvalidDescriptor plus the
generic retryable I/O class).  The repository tests reference them as
ErrWrongSecretType / ErrWrongSecretKey / ErrInvalidKubeConfig and compare
them with errors.Is; their defining declarations are not among the
provided source files, so they are modelled as the spec describes: three
distinct values distinguishable by identity. -/

/-- The controller error taxonomy (see module comment above). -/
inductive CapiErr where
  | ErrWrongSecretType
  | ErrWrongSecretKey
  | ErrInvalidKubeConfig
  | ErrOther
deriving DecidableEq, Repr

/-- errors.Is on sentinel error values: identity comparison. -/
def errorsIs (e target : CapiErr) : Bool := e == target

/-! ## capi_cluster.go: CapiCluster, validation, Unmarshal -/

/-- kubeconfig users[].user. -/
structure UserInfo where
  CertData : Option String
  KeyData : Option String
  Token : Option String
deriving DecidableEq, Repr

/-- kubeconfig clusters[].cluster. -/
structure ClusterInfo where
  CaData : String
  Server : String
deriving DecidableEq, Repr

/-- kubeconfig clusters[] entry. -/
structure Cluster where
  Name : String
  Cluster : ClusterInfo
deriving DecidableEq, Repr

/-- kubeconfig users[] entry. -/
structure User where
  Name : String
  User : UserInfo
deriving DecidableEq, Repr

/-- The decoded kubeconfig document. -/
structure KubeConfig where
  APIVersion : String
  Kind : String
  Clusters : List Cluster
  Users : List User
deriving DecidableEq, Repr

/-- CapiCluster: identity plus decoded kubeconfig. -/
structure CapiCluster where
  Name : String
  Namespace : String
  KubeConfig : KubeConfig
deriving DecidableEq, Repr

/-- NewCapiCluster returns an empty CapiCluster for the given identity. -/
def NewCapiCluster (name ns : String) : CapiCluster :=
  ⟨name, ns, ⟨"", "", [], []⟩⟩

/-- The YAML decoding step of Unmarshal, abstracted: yaml.Unmarshal either
fails or produces a KubeConfig value (absent fields decoded to zero
values).  Theorems are stated for every decode function, hence hold for
the real YAML decoder. -/
def Decode := String → Option KubeConfig

/-- ValidateCapiSecret: accept type cluster.x-k8s.io/secret, or type Opaque
carrying the cluster-name label (Rancher); then require the value data key. -/
def ValidateCapiSecret (s : KSecret) : Option CapiErr :=
  if s.secretType = "cluster.x-k8s.io/secret" then
    if (Smap.find s.data "value").isSome then none else some .ErrWrongSecretKey
  else if s.secretType = "Opaque" then
    if (Smap.find s.labels "cluster.x-k8s.io/cluster-name").isSome then
      if (Smap.find s.data "value").isSome then none else some .ErrWrongSecretKey
    else some .ErrWrongSecretType
  else some .ErrWrongSecretType

/-- Unmarshal a secret into a CapiCluster: validate, decode the value
payload, and require nonempty clusters and users, apiVersion v1, kind
Config. -/
def CapiCluster.Unmarshal (c : CapiCluster) (decode : Decode) (s : KSecret) :
    Except CapiErr CapiCluster :=
  match ValidateCapiSecret s with
  | some e => .error e
  | none =>
    match (Smap.find s.data "value").bind decode with
    | none => .error .ErrInvalidKubeConfig
    | some kc =>
      if kc.Clusters.length = 0 ∨ kc.Users.length = 0 ∨
          kc.APIVersion ≠ "v1" ∨ kc.Kind ≠ "Config" then
        .error .ErrInvalidKubeConfig
      else
        .ok { c with KubeConfig := kc }

/-- ValidateCapiNaming: name ends in -kubeconfig but not -user-kubeconfig. -/
def ValidateCapiNaming (n : NN) : Bool :=
  goEndsWith n.name "-kubeconfig" && !(goEndsWith n.name "-user-kubeconfig")

/-! ## Config (capi2argo_reconciler.go) -/

/-- The controller configuration. -/
structure Config where
  ArgoNamespace : String
  AllowedNamespaces : List String
  EnableGarbageCollection : Bool
  EnableNamespacedNames : Bool
  EnableAutoLabelCopy : Bool
deriving DecidableEq, Repr

/-- parseNamespaceList: split on commas, trim each entry, drop empties;
empty result is the nil (no-filter) list. -/
def parseNamespaceList (raw : String) : List String :=
  if raw = "" then []
  else
    let result := ((goSplit raw ",").map goTrimSpace).filter (fun ns => ns ≠ "")
    result

/-- IsNamespaceAllowed: empty allow-list admits every namespace. -/
def Config.IsNamespaceAllowed (c : Config) (ns : String) : Bool :=
  c.AllowedNamespaces.isEmpty || c.AllowedNamespaces.contains ns

/-! ## argo_cluster.go: label policy, naming, ArgoCluster, ConvertToSecret -/

/-- Label key asking for another label to be taken along. -/
def clusterTakeAlongKey : String := "take-along-label.capi-to-argocd."

/-- Marker recording that a label was taken from the cluster resource. -/
def clusterTakenFromClusterKey : String := "taken-from-cluster-label.capi-to-argocd."

/-- Label key marking a cluster to be ignored. -/
def clusterIgnoreKey : String := "ignore-cluster.capi-to-argocd"

/-- GetArgoCommonLabels: labels every reconciled object carries. -/
def GetArgoCommonLabels : Smap :=
  [("capi-to-argocd/owned", "true"), ("argocd.argoproj.io/secret-type", "cluster")]

/-- Argo cluster config JSON tlsClientConfig member. -/
structure ArgoTLS where
  CaData : Option String
  CertData : Option String
  KeyData : Option String
deriving DecidableEq, Repr

/-- Argo cluster config JSON document. -/
structure ArgoConfig where
  TLSClientConfig : Option ArgoTLS
  BearerToken : Option String
deriving DecidableEq, Repr

/-- ArgoCluster: everything needed for the CAPI to Argo conversion. -/
structure ArgoCluster where
  NamespacedName : NN
  ClusterName : String
  ClusterServer : String
  ClusterLabels : Smap
  TakeAlongLabels : Smap
  ClusterConfig : ArgoConfig
deriving DecidableEq, Repr

/-- BuildClusterName: optional namespace- qualification. -/
def BuildClusterName (s ns : String) (cfg : Config) : String :=
  (if cfg.EnableNamespacedNames then ns ++ "-" else "") ++ s

/-- BuildNamespacedName: derived ArgoCD secret identity. -/
def BuildNamespacedName (s ns : String) (cfg : Config) : NN :=
  ⟨"cluster-" ++ BuildClusterName (goTrimSuffix s "-kubeconfig") ns cfg, cfg.ArgoNamespace⟩

/-- extractTakeAlongLabel: the requested label name after the take-along
key, empty string for non-take-along keys, an error for a malformed
take-along key. -/
def extractTakeAlongLabel (key : String) : Except String String :=
  if goStartsWith key clusterTakeAlongKey then
    match (goSplit key clusterTakeAlongKey).get? 1 with
    | some r =>
      if r ≠ "" then .ok r
      else .error ("invalid take-along label, missing key after \x27/\x27: " ++ key)
    | none => .error ("invalid take-along label, missing key after \x27/\x27: " ++ key)
  else .ok ""

/-- validateClusterIgnoreLabel: nil-safe check for the ignore label. -/
def validateClusterIgnoreLabel (cluster : Option KCluster) : Bool :=
  match cluster with
  | none => false
  | some c => (Smap.find c.labels clusterIgnoreKey).isSome

/-- One iteration of the auto-copy filter. -/
def autoCopyStep (acc : Smap) (p : String × String) : Smap :=
  if goStartsWith p.fst "kubernetes.io/" || goStartsWith p.fst "cluster.x-k8s.io/" ||
      goStartsWith p.fst "capi-to-argocd/" || goStartsWith p.fst clusterTakeAlongKey ||
      p.fst == clusterIgnoreKey then
    acc
  else Smap.set acc p.fst p.snd

/-- buildAutoLabelCopy: copy all labels except system and internal ones. -/
def buildAutoLabelCopy (clusterLabels : Smap) : Smap :=
  clusterLabels.foldl autoCopyStep []

/-- The warning recorded for a requested take-along label that is absent. -/
def takeAlongWarning (label name ns : String) : String :=
  "take-along label \x27" ++ label ++ "\x27 not found on cluster resource: " ++ name ++
    ", namespace: " ++ ns ++ ". Ignoring"

/-- First loop of buildTakeAlongLabels: collect requested label names,
aborting on a malformed take-along key. -/
def extractAllTakeAlong : Smap → Except String (List String)
  | [] => .ok []
  | p :: t =>
    match extractTakeAlongLabel p.fst with
    | .error e => .error e
    | .ok l =>
      match extractAllTakeAlong t with
      | .error e => .error e
      | .ok rest => .ok (if l ≠ "" then l :: rest else rest)

/-- One iteration of the second loop of buildTakeAlongLabels: propagate a
present requested label together with its taken-from marker, or record a
warning for an absent one. -/
def takeAlongStep (labels : Smap) (nm nsp : String) (acc : Smap × List String)
    (label : String) : Smap × List String :=
  if label ≠ "" then
    match Smap.find labels label with
    | none => (acc.fst, acc.snd ++ [takeAlongWarning label nm nsp])
    | some v =>
      (Smap.set (Smap.set acc.fst label v) (clusterTakenFromClusterKey ++ label) "",
        acc.snd)
  else acc

/-- buildTakeAlongLabels: auto-copy mode, or the take-along mechanism.
Returns the propagation map (none models the nil map returned on a
malformed key) and the warning messages. -/
def buildTakeAlongLabels (cluster : KCluster) (cfg : Config) :
    Option Smap × List String :=
  if cfg.EnableAutoLabelCopy then (some (buildAutoLabelCopy cluster.labels), [])
  else
    match extractAllTakeAlong cluster.labels with
    | .error e => (none, [e])
    | .ok requested =>
      let folded := requested.foldl
        (takeAlongStep cluster.labels cluster.nn.name cluster.nn.ns)
        (([] : Smap), ([] : List String))
      (some folded.fst, folded.snd)

/-- NewArgoCluster: build the ArgoCluster from the parsed CapiCluster, the
source secret and the owning cluster resource.  Only the first cluster
and user entries of the kubeconfig are consulted. -/
def NewArgoCluster (c : CapiCluster) (s : KSecret) (cluster : Option KCluster)
    (cfg : Config) : ArgoCluster :=
  let takeAlong : Smap :=
    match cluster with
    | none => []
    | some cl => ((buildTakeAlongLabels cl cfg).fst).getD []
  let cl0 := c.KubeConfig.Clusters.headD ⟨"", ⟨"", ""⟩⟩
  let u0 := c.KubeConfig.Users.headD ⟨"", ⟨none, none, none⟩⟩
  { NamespacedName := BuildNamespacedName s.nn.name s.nn.ns cfg
    ClusterName := BuildClusterName cl0.Name s.nn.ns cfg
    ClusterServer := cl0.Cluster.Server
    ClusterLabels :=
      [("capi-to-argocd/cluster-secret-name", c.Name ++ "-kubeconfig"),
        ("capi-to-argocd/cluster-namespace", c.Namespace)]
    TakeAlongLabels := takeAlong
    ClusterConfig :=
      { TLSClientConfig := some ⟨some cl0.Cluster.CaData, u0.User.CertData, u0.User.KeyData⟩
        BearerToken := u0.User.Token } }

/-! ## JSON serialization of the Argo config (encoding/json with omitempty) -/

/-- JSON string escaping for the characters that appear in these values. -/
def jsonEscapeChar (c : Char) : String :=
  if c = '\"' then "\\\"" else if c = '\\' then "\\\\" else String.singleton c

/-- JSON string body escaping. -/
def jsonEscape (s : String) : String :=
  s.data.foldl (fun acc c => acc ++ jsonEscapeChar c) ""

/-- A JSON string literal. -/
def jstr (s : String) : String := "\"" ++ jsonEscape s ++ "\""

/-- A JSON object member. -/
def jfield (name v : String) : String := "\"" ++ name ++ "\":" ++ v

/-- One map insertion while merging label sources. -/
def setStep (acc : Smap) (p : String × String) : Smap := Smap.set acc p.fst p.snd

/-- Comma-joined JSON members. -/
def joinComma : List String → String
  | [] => ""
  | [x] => x
  | x :: rest => x ++ "," ++ joinComma rest

/-- json.Marshal of ArgoTLS: fields in declaration order, nil pointers
omitted. -/
def ArgoTLS.toJson (t : ArgoTLS) : String :=
  "\x7b" ++
    joinComma
      ((t.CaData.map (fun v => jfield "caData" (jstr v))).toList ++
        (t.CertData.map (fun v => jfield "certData" (jstr v))).toList ++
        (t.KeyData.map (fun v => jfield "keyData" (jstr v))).toList) ++
    "\x7d"

/-- json.Marshal of ArgoConfig: fields in declaration order, nil pointers
omitted. -/
def ArgoConfig.toJson (c : ArgoConfig) : String :=
  "\x7b" ++
    joinComma
      ((c.TLSClientConfig.map (fun t => jfield "tlsClientConfig" t.toJson)).toList ++
        (c.BearerToken.map (fun v => jfield "bearerToken" (jstr v))).toList) ++
    "\x7d"

/-- ConvertToSecret: merge common, source-linkage and take-along labels
(later sources overriding earlier ones) and emit the name/server/config
data payload. -/
def ConvertToSecret (a : ArgoCluster) : KSecret :=
  let m1 := GetArgoCommonLabels.foldl setStep ([] : Smap)
  let m2 := a.ClusterLabels.foldl setStep m1
  let m3 := a.TakeAlongLabels.foldl setStep m2
  { nn := a.NamespacedName
    secretType := ""
    labels := m3
    data :=
      [("name", a.ClusterName), ("server", a.ClusterServer),
        ("config", a.ClusterConfig.toJson)] }

/-! ## capi2argo_reconciler.go: the reconciliation engine -/

/-- ValidateObjectOwner: true iff the secret carries the ownership label
with value true (the Go function returns nil exactly then). -/
def ValidateObjectOwner (s : KSecret) : Bool :=
  Smap.find s.labels "capi-to-argocd/owned" == some "true"

/-- The key suffix after the taken-from marker, as the reconciler extracts
it with strings.Split (always called under a HasPrefix guard). -/
def takenKeySuffix (l : String) : String :=
  (goSplit l clusterTakenFromClusterKey).getD 1 ""

/-- One name/server/config comparison of the update path: overwrite the
data key and flag a change when the current bytes differ. -/
def dataStep (d : Smap) (key val : String) (ch : Bool) : Smap × Bool :=
  if (Smap.find d key).getD "" = val then (d, ch) else (Smap.set d key val, true)

/-- Keys named by the taken-from markers of the desired take-along map. -/
def takenAlongKeysOf (ta : Smap) : List String :=
  ta.foldl
    (fun acc p =>
      if goStartsWith p.fst clusterTakenFromClusterKey then acc ++ [takenKeySuffix p.fst]
      else acc)
    []

/-- One iteration of the stale take-along removal. -/
def staleStep (keysList : List String) (acc : Smap × Bool) (p : String × String) :
    Smap × Bool :=
  if goStartsWith p.fst clusterTakenFromClusterKey then
    if keysList.contains (takenKeySuffix p.fst) then acc
    else (Smap.erase (Smap.erase acc.fst p.fst) (takenKeySuffix p.fst), true)
  else acc

/-- Stale take-along removal: for every marker label of the existing
secret whose key is no longer requested, delete the marker and the bare
key and flag a change. -/
def staleScan (orig : Smap) (keysList : List String) (ch : Bool) : Smap × Bool :=
  orig.foldl (staleStep keysList) (orig, ch)

/-- One iteration of the take-along label merge. -/
def mergeStep (acc : Smap × Bool) (p : String × String) : Smap × Bool :=
  match Smap.find acc.fst p.fst with
  | some val => if val ≠ p.snd then (Smap.set acc.fst p.fst p.snd, true) else acc
  | none => (Smap.set acc.fst p.fst p.snd, true)

/-- Merge the desired take-along labels into the existing labels, flagging
a change for every missing or differing entry. -/
def mergeTakeAlong (m : Smap) (ta : Smap) (ch : Bool) : Smap × Bool :=
  ta.foldl mergeStep (m, ch)

/-- The three data comparisons of the update path. -/
def syncData (ac : ArgoCluster) (argoSecret : KSecret) (d : Smap) : Smap × Bool :=
  let s1 := dataStep d "name" ac.ClusterName false
  let s2 := dataStep s1.fst "server" ac.ClusterServer s1.snd
  dataStep s2.fst "config" ((Smap.find argoSecret.data "config").getD "") s2.snd

/-- The take-along label synchronization of the update path. -/
def syncLabels (ac : ArgoCluster) (ls : Smap) (ch : Bool) : Smap × Bool :=
  let s4 := staleScan ls (takenAlongKeysOf ac.TakeAlongLabels) ch
  mergeTakeAlong s4.fst ac.TakeAlongLabels s4.snd

/-- The diff-and-converge block of Reconcile: returns the updated secret
and whether anything changed. -/
def syncSecret (ac : ArgoCluster) (argoSecret existing : KSecret) : KSecret × Bool :=
  let sd := syncData ac argoSecret existing.data
  let sl := syncLabels ac existing.labels sd.snd
  ({ existing with data := sd.fst, labels := sl.fst }, sl.snd)

/-- Replace the first occurrence of old in the list (the object an Update
call rewrites). -/
def replaceFirst : List KSecret → KSecret → KSecret → List KSecret
  | [], _, _ => []
  | h :: t, old, new => if h = old then new :: t else h :: replaceFirst t old new

/-- The source-linkage label filter used by the garbage-collection path. -/
def matchesSourceLabels (cfg : Config) (n : NN) (s : KSecret) : Bool :=
  s.nn.ns == cfg.ArgoNamespace &&
    Smap.find s.labels "capi-to-argocd/cluster-secret-name" == some n.name &&
    Smap.find s.labels "capi-to-argocd/cluster-namespace" == some n.ns

/-- deleteArgoSecretByLabels: list secrets in the Argo namespace matching
the two source-linkage labels; delete the first match if any. -/
def deleteArgoSecretByLabels (cfg : Config) (store : Store) (n : NN) :
    Store × List KSecret :=
  match store.secrets.filter (matchesSourceLabels cfg n) with
  | [] => (store, [])
  | v :: _ => ({ store with secrets := store.secrets.erase v }, [v])

/-- The outcome of one Reconcile invocation: the store after the pass, the
create/update/delete calls it issued, the returned error and whether a
periodic re-check was scheduled (Result.RequeueAfter). -/
structure RecResult where
  store : Store
  created : List KSecret
  updated : List KSecret
  deleted : List KSecret
  err : Option CapiErr
  requeue : Bool
deriving DecidableEq, Repr

/-- Reconcile: the full reconciliation pass of the controller. -/
def Reconcile (cfg : Config) (decode : Decode) (req : NN) (store : Store) : RecResult :=
  if ValidateCapiNaming req = false then ⟨store, [], [], [], none, false⟩
  else
    match findSecret store.secrets req with
    | none =>
      if cfg.EnableGarbageCollection then
        let d := deleteArgoSecretByLabels cfg store req
        ⟨d.fst, [], [], d.snd, none, true⟩
      else ⟨store, [], [], [], none, true⟩
    | some capiSecret =>
      match ValidateCapiSecret capiSecret with
      | some e => ⟨store, [], [], [], some e, false⟩
      | none =>
        let c0 := NewCapiCluster (goTrimSuffix req.name "-kubeconfig") req.ns
        match c0.Unmarshal decode capiSecret with
        | .error e => ⟨store, [], [], [], some e, false⟩
        | .ok capiCluster =>
          let clName := (Smap.find capiSecret.labels "cluster.x-k8s.io/cluster-name").getD ""
          if clName = "" then
            ⟨store, [], [], [], some .ErrOther, true⟩
          else
            match findCluster store.clusters ⟨clName, req.ns⟩ with
            | none =>
              let d := deleteArgoSecretByLabels cfg store req
              ⟨d.fst, [], [], d.snd, none, true⟩
            | some clusterObject =>
              if validateClusterIgnoreLabel (some clusterObject) then
                ⟨store, [], [], [], none, true⟩
              else
                let argoCluster := NewArgoCluster capiCluster capiSecret (some clusterObject) cfg
                let argoSecret := ConvertToSecret argoCluster
                match findSecret store.secrets argoCluster.NamespacedName with
                | none =>
                  ⟨{ store with secrets := store.secrets ++ [argoSecret] },
                    [argoSecret], [], [], none, true⟩
                | some existingSecret =>
                  if ValidateObjectOwner existingSecret = false then
                    ⟨store, [], [], [], none, true⟩
                  else
                    let sy := syncSecret argoCluster argoSecret existingSecret
                    if sy.snd then
                      ⟨{ store with
                          secrets := replaceFirst store.secrets existingSecret sy.fst },
                        [], [sy.fst], [], none, true⟩
                    else ⟨store, [], [], [], none, true⟩

/-! ## Spec-side serialization (for the C3 refinement comparison) -/

/-- Modelled from the spec: the config blob as the specification describes
it — a JSON object with tlsClientConfig (caData, certData, keyData) when a
certificate/key principal is present, or bearerToken when a token
principal is present, and every absent field omitted rather than emitted
empty. -/
def argoConfigJsonSpec (c : CapiCluster) : String :=
  let u := (c.KubeConfig.Users.headD ⟨"", ⟨none, none, none⟩⟩).User
  let cl := (c.KubeConfig.Clusters.headD ⟨"", ⟨"", ""⟩⟩).Cluster
  if u.CertData.isSome || u.KeyData.isSome then
    "\x7b" ++
      jfield "tlsClientConfig"
        ("\x7b" ++
          joinComma
            ((if cl.CaData ≠ "" then [jfield "caData" (jstr cl.CaData)] else []) ++
              (u.CertData.map (fun v => jfield "certData" (jstr v))).toList ++
              (u.KeyData.map (fun v => jfield "keyData" (jstr v))).toList) ++
          "\x7d") ++
      "\x7d"
  else
    match u.Token with
    | some tok => "\x7b" ++ jfield "bearerToken" (jstr tok) ++ "\x7d"
    | none => "\x7b\x7d"

/-! ## Concrete fixtures used by counterexamples and witnesses -/

/-- A kubeconfig with a token principal, no certificate/key and no CA
blob. -/
def tokenKubeConfig : KubeConfig :=
  ⟨"v1", "Config", [⟨"kube", ⟨"", "https://example:6443"⟩⟩],
    [⟨"admin", ⟨none, none, some "tok"⟩⟩]⟩

/-- The CapiCluster parsed from a token-only credential record. -/
def tokenCapi : CapiCluster := ⟨"c1", "ns1", tokenKubeConfig⟩

/-- The credential record behind tokenCapi. -/
def tokenSecret : KSecret :=
  ⟨⟨"c1-kubeconfig", "ns1"⟩, "cluster.x-k8s.io/secret",
    [("cluster.x-k8s.io/cluster-name", "c1")], [("value", "payload")]⟩

/-- The owning cluster resource for the fixtures. -/
def fixCluster : KCluster := ⟨⟨"c1", "ns1"⟩, []⟩

/-- A configuration with garbage collection enabled. -/
def gcCfg : Config := ⟨"argocd", [], true, false, false⟩

/-- The decode function of the fixtures: the payload decodes to the token
kubeconfig. -/
def fixDecode : Decode := fun s => if s = "payload" then some tokenKubeConfig else none

/-- An ArgoCD cluster secret that carries both source-linkage labels but
not the ownership label. -/
def unownedTarget : KSecret :=
  ⟨⟨"cluster-c1", "argocd"⟩, "Opaque",
    [("capi-to-argocd/cluster-secret-name", "c1-kubeconfig"),
      ("capi-to-argocd/cluster-namespace", "ns1")], []⟩

/-- The API-server invariant: no two records share an identity. -/
def SecretsWf (store : Store) : Prop := (store.secrets.map KSecret.nn).Nodup

/-- An owned ArgoCD cluster secret matching the c1 source-linkage labels. -/
def ownedTargetA : KSecret :=
  ⟨⟨"cluster-c1", "argocd"⟩, "Opaque",
    [("capi-to-argocd/owned", "true"),
      ("capi-to-argocd/cluster-secret-name", "c1-kubeconfig"),
      ("capi-to-argocd/cluster-namespace", "ns1")], []⟩

/-- A second owned ArgoCD cluster secret matching the same source-linkage
labels under another name. -/
def ownedTargetB : KSecret :=
  ⟨⟨"cluster-c1-b", "argocd"⟩, "Opaque",
    [("capi-to-argocd/owned", "true"),
      ("capi-to-argocd/cluster-secret-name", "c1-kubeconfig"),
      ("capi-to-argocd/cluster-namespace", "ns1")], []⟩

/-! ## Helper lemmas on the string utilities -/

theorem Smap.find_eq_none (m : Smap) (k : String) (h : ∀ p ∈ m, p.fst ≠ k) :
    m.find k = none := by
  induction m with
  | nil => rfl
  | cons p t ih =>
    simp only [Smap.find]
    rw [if_neg (h p (by simp))]
    exact ih (fun q hq => h q (by simp [hq]))

theorem Smap.find_mem {m : Smap} {k v : String} (h : m.find k = some v) : (k, v) ∈ m := by
  induction m with
  | nil => simp [Smap.find] at h
  | cons p t ih =>
    obtain ⟨pk, pv⟩ := p
    simp only [Smap.find] at h
    by_cases hk : pk = k
    · rw [if_pos hk] at h
      exact List.mem_cons.mpr (Or.inl (by simp_all))
    · rw [if_neg hk] at h
      exact List.mem_cons_of_mem _ (ih h)

theorem Smap.find_isSome_of_mem {m : Smap} {k v : String} (h : (k, v) ∈ m) :
    (m.find k).isSome := by
  induction m with
  | nil => simp at h
  | cons p t ih =>
    simp only [Smap.find]
    by_cases hk : p.fst = k
    · simp [hk]
    · rw [if_neg hk]
      rcases List.mem_cons.mp h with h1 | h1

      · exact absurd (by rw [← h1]) hk
      · exact ih h1

theorem Smap.mem_erase {m : Smap} {k : String} {p : String × String}
    (h : p ∈ m.erase k) : p ∈ m ∧ p.fst ≠ k := by
  have := List.mem_filter.mp h
  refine ⟨this.1, by simpa using this.2⟩

theorem Smap.mem_erase_of_mem {m : Smap} {k : String} {p : String × String}
    (hp : p ∈ m) (hne : p.fst ≠ k) : p ∈ m.erase k :=
  List.mem_filter.mpr ⟨hp, by simpa using hne⟩

theorem Smap.find_erase_self (m : Smap) (k : String) : (m.erase k).find k = none := by
  apply Smap.find_eq_none
  intro p hp
  exact (Smap.mem_erase hp).2

theorem Smap.find_erase_ne (m : Smap) {k k' : String} (h : k' ≠ k) :
    Smap.find (Smap.erase m k) k' = Smap.find m k' := by
  induction m with
  | nil => rfl
  | cons p t ih =>
    by_cases hp : p.fst = k
    · have he : Smap.erase (p :: t) k = Smap.erase t k := by
        simp [Smap.erase, List.filter_cons, hp]
      rw [he, ih]
      simp only [Smap.find]
      rw [if_neg (by rw [hp]; exact fun hh => h hh.symm)]
    · have he : Smap.erase (p :: t) k = p :: Smap.erase t k := by
        simp [Smap.erase, List.filter_cons, hp]
      rw [he]
      simp only [Smap.find]
      by_cases hk : p.fst = k'
      · rw [if_pos hk, if_pos hk]
      · rw [if_neg hk, if_neg hk, ih]

theorem Smap.find_append (m1 m2 : Smap) (k : String) :
    Smap.find (m1 ++ m2) k = ((Smap.find m1 k).or (Smap.find m2 k)) := by
  induction m1 with
  | nil => simp [Smap.find]
  | cons p t ih =>
    simp only [List.cons_append, Smap.find]
    by_cases hk : p.fst = k
    · rw [if_pos hk, if_pos hk]
      rfl
    · rw [if_neg hk, if_neg hk]
      exact ih

theorem Smap.find_set_self (m : Smap) (k v : String) : (m.set k v).find k = some v := by
  simp [Smap.set, Smap.find_append, Smap.find_erase_self, Smap.find]

theorem Smap.find_set_ne (m : Smap) {k k' : String} (v : String) (h : k' ≠ k) :
    (m.set k v).find k' = m.find k' := by
  simp [Smap.set, Smap.find_append, Smap.find_erase_ne m h, Smap.find, if_neg (fun hh : k = k' => h hh.symm)]

theorem Smap.mem_set {m : Smap} {k v : String} {p : String × String}
    (h : p ∈ m.set k v) : p ∈ m ∨ p = (k, v) := by
  rcases List.mem_append.mp h with h1 | h1
  · exact Or.inl (Smap.mem_erase h1).1
  · simp at h1
    exact Or.inr (by simp [h1])

theorem Smap.nodupKeys_erase {m : Smap} (k : String) (h : m.NodupKeys) :
    Smap.NodupKeys (Smap.erase m k) := by
  unfold Smap.NodupKeys at *
  unfold Smap.erase
  exact h.sublist ((List.filter_sublist m).map Prod.fst)

theorem Smap.nodupKeys_set {m : Smap} (k v : String) (h : m.NodupKeys) :
    (m.set k v).NodupKeys := by
  unfold Smap.NodupKeys at *
  unfold Smap.set
  rw [List.map_append]
  apply List.Nodup.append
  · exact Smap.nodupKeys_erase k h
  · simp
  · intro a ha hb
    simp at hb
    subst hb
    rcases List.mem_map.mp ha with ⟨p, hp, hfst⟩
    exact absurd hfst (Smap.mem_erase hp).2

theorem Smap.find_of_mem_nodup {m : Smap} {k v : String}
    (hm : m.NodupKeys) (h : (k, v) ∈ m) : m.find k = some v := by
  induction m with
  | nil => simp at h
  | cons p t ih =>
    simp only [Smap.find]
    rcases List.mem_cons.mp h with h1 | h1
    · rw [← h1]
      simp
    · have hk : p.fst ≠ k := by
        intro hk
        have : k ∈ t.map Prod.fst := List.mem_map.mpr ⟨(k, v), h1, rfl⟩
        unfold Smap.NodupKeys at hm
        rw [List.map_cons] at hm
        exact (List.nodup_cons.mp hm).1 (hk ▸ this)
      rw [if_neg hk]
      exact ih (by
        unfold Smap.NodupKeys at hm ⊢
        rw [List.map_cons] at hm
        exact (List.nodup_cons.mp hm).2) h1


theorem goEndsWith_iff (s suf : String) :
    goEndsWith s suf = true ↔ ∃ t : String, s = t ++ suf := by
  unfold goEndsWith
  rw [List.isSuffixOf_iff_suffix]
  constructor
  · rintro ⟨t, ht⟩
    refine ⟨⟨t⟩, ?_⟩
    apply String.ext
    rw [String.data_append]
    exact ht.symm
  · rintro ⟨t, ht⟩
    exact ⟨t.data, by rw [ht, String.data_append]⟩

theorem mem_splitCharsAux_chars {c : Char} :
    ∀ (fuel : Nat) (s sep p : List Char), p ∈ splitCharsAux fuel s sep → c ∈ p → c ∈ s := by
  intro fuel
  induction fuel with
  | zero =>
    intro s sep p hp hc
    simp only [splitCharsAux, List.mem_singleton] at hp
    exact hp ▸ hc
  | succ f ih =>
    intro s sep p hp hc
    simp only [splitCharsAux] at hp
    match hf : findSubIdx s sep with
    | none =>
      rw [hf] at hp
      simp only [List.mem_singleton] at hp
      exact hp ▸ hc
    | some i =>
      rw [hf] at hp
      rcases List.mem_cons.mp hp with h1 | h1
      · exact List.mem_of_mem_take (h1 ▸ hc)
      · exact List.mem_of_mem_drop (ih _ sep p h1 hc)

theorem findSubIdx_single_none {s : List Char} {c : Char}
    (h : findSubIdx s [c] = none) : c ∉ s := by
  induction s with
  | nil => simp
  | cons d t ih =>
    unfold findSubIdx at h
    by_cases hpre : List.isPrefixOf [c] (d :: t)
    · rw [if_pos hpre] at h
      exact absurd h (by simp)
    · rw [if_neg hpre] at h
      have h' : Option.map (fun i => i + 1) (findSubIdx t [c]) = none := h
      have ht : findSubIdx t [c] = none := by
        cases hm : findSubIdx t [c]
        · rfl
        · rw [hm] at h'
          exact absurd h' (by simp)
      have hcd : c ≠ d := by
        intro hcd
        apply hpre
        simp [List.isPrefixOf, hcd.symm]
      intro hmem
      rcases List.mem_cons.mp hmem with h1 | h1
      · exact hcd h1
      · exact ih ht h1

theorem findSubIdx_single_take {s : List Char} {c : Char} :
    ∀ {i : Nat}, findSubIdx s [c] = some i → c ∉ s.take i := by
  induction s with
  | nil => intro i _ ; simp
  | cons d t ih =>
    intro i h
    unfold findSubIdx at h
    by_cases hpre : List.isPrefixOf [c] (d :: t)
    · rw [if_pos hpre] at h
      have : i = 0 := by simpa using h.symm
      simp [this]
    · rw [if_neg hpre] at h
      have h' : Option.map (fun i => i + 1) (findSubIdx t [c]) = some i := h
      match hmap : findSubIdx t [c] with
      | none => rw [hmap] at h' ; exact absurd h' (by simp)
      | some j =>
        rw [hmap] at h'
        have hij : i = j + 1 := by simpa using h'.symm
        have hcd : c ≠ d := by
          intro hcd
          apply hpre
          simp [List.isPrefixOf, hcd.symm]
        subst hij
        simp only [List.take_succ_cons]
        intro hmem
        rcases List.mem_cons.mp hmem with h1 | h1
        · exact hcd h1
        · exact ih hmap h1

theorem findSubIdx_some_bound {s sep : List Char} {i : Nat}
    (hsep : sep ≠ []) (h : findSubIdx s sep = some i) : i + sep.length ≤ s.length := by
  induction s generalizing i with
  | nil =>
    unfold findSubIdx at h
    have hfalse : List.isPrefixOf sep ([] : List Char) = false := by
      cases sep with
      | nil => exact absurd rfl hsep
      | cons a t => rfl
    rw [hfalse] at h
    simp at h
  | cons d t ih =>
    unfold findSubIdx at h
    by_cases hpre : List.isPrefixOf sep (d :: t)
    · rw [if_pos hpre] at h
      have : i = 0 := by simpa using h.symm
      subst this
      have := (List.isPrefixOf_iff_prefix.mp hpre).length_le
      simpa using this
    · rw [if_neg hpre] at h
      have h' : Option.map (fun i => i + 1) (findSubIdx t sep) = some i := h
      match hmap : findSubIdx t sep with
      | none => rw [hmap] at h' ; exact absurd h' (by simp)
      | some j =>
        rw [hmap] at h'
        have hij : i = j + 1 := by simpa using h'.symm
        subst hij
        have := ih hmap
        simp only [List.length_cons]
        omega

theorem splitCharsAux_single_no_sep {c : Char} :
    ∀ (fuel : Nat) (s p : List Char), s.length < fuel →
      p ∈ splitCharsAux fuel s [c] → c ∉ p := by
  intro fuel
  induction fuel with
  | zero => intro s p h ; omega
  | succ f ih =>
    intro s p hlen hp
    simp only [splitCharsAux] at hp
    match hf : findSubIdx s [c] with
    | none =>
      rw [hf] at hp
      simp only [List.mem_singleton] at hp
      exact hp ▸ findSubIdx_single_none hf
    | some i =>
      rw [hf] at hp
      rcases List.mem_cons.mp hp with h1 | h1
      · exact h1 ▸ findSubIdx_single_take hf
      · have hbound := findSubIdx_some_bound (by simp) hf
        simp only [List.length_singleton] at hbound
        apply ih (s.drop (i + 1)) p _ h1
        have : (s.drop (i + 1)).length = s.length - (i + 1) := by simp
        omega

theorem goTrimSpace_all_space {l : List Char} (h : ∀ c ∈ l, isSpaceChar c) :
    goTrimSpace ⟨l⟩ = "" := by
  unfold goTrimSpace
  have h1 : l.dropWhile isSpaceChar = [] := List.dropWhile_eq_nil_iff.mpr h
  simp [h1]

/-! ## Claim theorems -/

/-- C4: ValidateCapiNaming accepts exactly the names with the -kubeconfig
suffix and without the -user-kubeconfig suffix, and a failing naming check
makes Reconcile exit at once with success: no writes, no error, no
requeue. -/
theorem C4_naming_precondition :
    (∀ n : NN, ValidateCapiNaming n = true ↔
      ((∃ t : String, n.name = t ++ "-kubeconfig") ∧
        ¬(∃ t : String, n.name = t ++ "-user-kubeconfig"))) ∧
    (∀ (cfg : Config) (decode : Decode) (req : NN) (store : Store),
      ValidateCapiNaming req = false →
        Reconcile cfg decode req store = ⟨store, [], [], [], none, false⟩) := by
  constructor
  · intro n
    unfold ValidateCapiNaming
    rw [Bool.and_eq_true, Bool.not_eq_true']
    rw [show (goEndsWith n.name "-kubeconfig" = true) ↔ _ from goEndsWith_iff _ _]
    constructor
    · rintro ⟨h1, h2⟩
      refine ⟨h1, fun hex => ?_⟩
      rw [← Bool.not_eq_true] at h2
      exact h2 ((goEndsWith_iff _ _).mpr hex)
    · rintro ⟨h1, h2⟩
      refine ⟨h1, ?_⟩
      rw [← Bool.not_eq_true]
      intro hc
      exact h2 ((goEndsWith_iff _ _).mp hc)
  · intro cfg decode req store h
    simp [Reconcile, h]

/-- C4 witness. -/
theorem C4_naming_precondition_witness :
    ValidateCapiNaming ⟨"c1-kubeconfig", "ns"⟩ = true ∧
    ValidateCapiNaming ⟨"c1-user-kubeconfig", "ns"⟩ = false ∧
    Reconcile ⟨"argocd", [], true, false, false⟩ (fun _ => none)
        ⟨"c1-user-kubeconfig", "ns"⟩ ⟨[], []⟩ =
      ⟨⟨[], []⟩, [], [], [], none, false⟩ := by
  refine ⟨by decide, by decide, ?_⟩
  exact C4_naming_precondition.2 _ _ _ _ (by decide)

/-- C5: once the type/key checks pass, Unmarshal fails with the invalid
descriptor error exactly when the payload does not decode, or decodes with
an empty clusters list, an empty users list, a wrong apiVersion or a wrong
kind; it succeeds in every other case. -/
theorem C5_descriptor_validation (decode : Decode) (c : CapiCluster) (s : KSecret)
    (payload : String) (hval : ValidateCapiSecret s = none)
    (hpay : Smap.find s.data "value" = some payload) :
    (c.Unmarshal decode s = .error CapiErr.ErrInvalidKubeConfig ↔
      (decode payload = none ∨
        ∃ kc, decode payload = some kc ∧
          (kc.Clusters.length = 0 ∨ kc.Users.length = 0 ∨
            kc.APIVersion ≠ "v1" ∨ kc.Kind ≠ "Config"))) ∧
    (∀ kc, decode payload = some kc →
      kc.Clusters.length ≠ 0 → kc.Users.length ≠ 0 →
      kc.APIVersion = "v1" → kc.Kind = "Config" →
      c.Unmarshal decode s = .ok { c with KubeConfig := kc }) := by
  unfold CapiCluster.Unmarshal
  rw [hval, hpay]
  simp only [Option.some_bind]
  constructor
  · constructor
    · intro h
      split at h
      next hd => exact Or.inl hd
      next kc hd =>
        refine Or.inr ⟨kc, hd, ?_⟩
        by_contra hbad
        rw [if_neg hbad] at h
        exact absurd h (by simp)
    · rintro (hd | ⟨kc, hd, hbad⟩)
      · split
        next => rfl
        next kc hkc => exact absurd (hd.symm.trans hkc) (by simp)
      · split
        next hnone => exact absurd (hnone.symm.trans hd) (by simp)
        next kc' hkc =>
          rw [← Option.some_inj.mp (hd.symm.trans hkc)]
          rw [if_pos hbad]
  · intro kc hkc h1 h2 h3 h4
    split
    next hnone => exact absurd (hnone.symm.trans hkc) (by simp)
    next kc' hkc' =>
      rw [← Option.some_inj.mp (hkc.symm.trans hkc')]
      rw [if_neg (by simp [h1, h2, h3, h4])]

/-- C5 witness. -/
theorem C5_descriptor_validation_witness :
    CapiCluster.Unmarshal (NewCapiCluster "c1" "ns") (fun _ => none)
        ⟨⟨"c1-kubeconfig", "ns"⟩, "cluster.x-k8s.io/secret", [], [("value", "p")]⟩ =
      .error CapiErr.ErrInvalidKubeConfig := by
  exact (C5_descriptor_validation (fun _ => none) _ _ "p" (by decide) (by decide)).1.mpr
    (Or.inl rfl)

/-- C6: the three validation failures are pairwise distinct sentinel
values that callers distinguish by identity with errors.Is, and the
validation functions signal each failure with its own sentinel. -/
theorem C6_error_distinguishability :
    (errorsIs CapiErr.ErrWrongSecretType CapiErr.ErrWrongSecretKey = false ∧
      errorsIs CapiErr.ErrWrongSecretType CapiErr.ErrInvalidKubeConfig = false ∧
      errorsIs CapiErr.ErrWrongSecretKey CapiErr.ErrInvalidKubeConfig = false) ∧
    (∀ e : CapiErr, errorsIs e e = true) ∧
    (∀ s : KSecret, s.secretType ≠ "cluster.x-k8s.io/secret" → s.secretType ≠ "Opaque" →
      ValidateCapiSecret s = some CapiErr.ErrWrongSecretType) ∧
    (∀ s : KSecret, s.secretType = "cluster.x-k8s.io/secret" →
      Smap.find s.data "value" = none →
      ValidateCapiSecret s = some CapiErr.ErrWrongSecretKey) ∧
    (∀ (decode : Decode) (c : CapiCluster) (s : KSecret) (payload : String),
      ValidateCapiSecret s = none → Smap.find s.data "value" = some payload →
      decode payload = none →
      c.Unmarshal decode s = .error CapiErr.ErrInvalidKubeConfig) := by
  refine ⟨⟨rfl, rfl, rfl⟩, ?_, ?_, ?_, ?_⟩
  · intro e
    cases e <;> rfl
  · intro s h1 h2
    unfold ValidateCapiSecret
    rw [if_neg h1, if_neg h2]
  · intro s h1 h2
    unfold ValidateCapiSecret
    rw [if_pos h1, h2]
    rfl
  · intro decode c s payload hval hpay hdec
    unfold CapiCluster.Unmarshal
    rw [hval, hpay]
    simp only [Option.some_bind, hdec]

/-- C6 witness. -/
theorem C6_error_distinguishability_witness :
    ValidateCapiSecret ⟨⟨"c1-kubeconfig", "ns"⟩, "foo/bar", [], [("value", "p")]⟩ =
      some CapiErr.ErrWrongSecretType ∧
    ValidateCapiSecret ⟨⟨"c1-kubeconfig", "ns"⟩, "cluster.x-k8s.io/secret", [], []⟩ =
      some CapiErr.ErrWrongSecretKey ∧
    CapiCluster.Unmarshal (NewCapiCluster "c1" "ns") (fun _ => none)
        ⟨⟨"c1-kubeconfig", "ns"⟩, "cluster.x-k8s.io/secret", [], [("value", "p")]⟩ =
      .error CapiErr.ErrInvalidKubeConfig := by
  refine ⟨?_, ?_, ?_⟩
  · exact C6_error_distinguishability.2.2.1 _ (by decide) (by decide)
  · exact C6_error_distinguishability.2.2.2.1 _ (by decide) (by decide)
  · exact C6_error_distinguishability.2.2.2.2 _ _ _ "p" (by decide) (by decide) rfl

/-- C7: with the source secret absent, garbage collection enabled and no
secret in the Argo namespace matching both source-linkage labels, the
pass deletes nothing (and creates and updates nothing) and returns
success. -/
theorem C7_gc_noop_on_missing_target (cfg : Config) (decode : Decode) (req : NN)
    (store : Store) (hnm : ValidateCapiNaming req = true)
    (habs : findSecret store.secrets req = none)
    (hgc : cfg.EnableGarbageCollection = true)
    (hmatch : store.secrets.filter (matchesSourceLabels cfg req) = []) :
    Reconcile cfg decode req store = ⟨store, [], [], [], none, true⟩ := by
  unfold Reconcile
  rw [if_neg (by rw [hnm] ; simp)]
  rw [habs, hgc]
  simp only [if_pos]
  unfold deleteArgoSecretByLabels
  rw [hmatch]

/-- C7 witness. -/
theorem C7_gc_noop_on_missing_target_witness :
    Reconcile ⟨"argocd", [], true, false, false⟩ (fun _ => none) ⟨"c1-kubeconfig", "ns"⟩
        ⟨[⟨⟨"other", "argocd"⟩, "", [("capi-to-argocd/cluster-secret-name", "x")], []⟩], []⟩ =
      ⟨⟨[⟨⟨"other", "argocd"⟩, "", [("capi-to-argocd/cluster-secret-name", "x")], []⟩], []⟩,
        [], [], [], none, true⟩ := by
  exact C7_gc_noop_on_missing_target _ _ _ _ (by decide) (by decide) (by decide) (by decide)

/-- C9: parseNamespaceList trims each comma-separated entry, drops the
entries that are empty after trimming, and sends an input consisting only
of commas and whitespace (including the empty input) to the empty list. -/
theorem C9_parse_namespace_list (raw : String) :
    (∀ x ∈ parseNamespaceList raw, x ≠ "" ∧ ∃ e ∈ goSplit raw ",", x = goTrimSpace e) ∧
    ((∀ c ∈ raw.data, c = ',' ∨ isSpaceChar c) → parseNamespaceList raw = []) := by
  constructor
  · intro x hx
    unfold parseNamespaceList at hx
    by_cases hraw : raw = ""
    · rw [if_pos hraw] at hx
      simp at hx
    · rw [if_neg hraw] at hx
      simp only at hx
      have h1 := List.mem_filter.mp hx
      have h2 := List.mem_map.mp h1.1
      rcases h2 with ⟨e, he, hxe⟩
      refine ⟨by simpa using h1.2, e, he, hxe.symm⟩
  · intro hchars
    unfold parseNamespaceList
    by_cases hraw : raw = ""
    · rw [if_pos hraw]
    · rw [if_neg hraw]
      simp only
      rw [List.filter_eq_nil_iff]
      intro x hx
      have h2 := List.mem_map.mp hx
      rcases h2 with ⟨e, he, hxe⟩
      unfold goSplit at he
      rcases List.mem_map.mp he with ⟨l, hl, hel⟩
      have hsub : ∀ c ∈ l, c ∈ raw.data := by
        intro c hc
        unfold splitChars at hl
        rw [if_neg (by decide)] at hl
        exact mem_splitCharsAux_chars _ raw.data _ l hl hc
      have hnosep : ',' ∉ l := by
        unfold splitChars at hl
        rw [if_neg (by decide)] at hl
        exact splitCharsAux_single_no_sep _ raw.data l (by omega) hl
      have hall : ∀ c ∈ l, isSpaceChar c := by
        intro c hc
        rcases hchars c (hsub c hc) with h1 | h1
        · exact absurd (h1 ▸ hc) hnosep
        · exact h1
      rw [← hxe, ← hel]
      simp [goTrimSpace_all_space hall]

/-- C9 witness. -/
theorem C9_parse_namespace_list_witness :
    parseNamespaceList " ,  ,\t," = [] ∧
    parseNamespaceList " a ,, b " = ["a", "b"] := by
  refine ⟨(C9_parse_namespace_list _).2 (by decide), by decide⟩

/-! ## Helper lemmas for the take-along label mechanism -/

theorem splitCharsAux_of_none {s sep : List Char} (h : findSubIdx s sep = none) :
    ∀ fuel, splitCharsAux fuel s sep = [s] := by
  intro fuel
  cases fuel with
  | zero => rfl
  | succ f =>
    simp only [splitCharsAux]
    rw [h]

theorem splitChars_sep_append {sep k : List Char} (hsep : sep ≠ [])
    (hno : findSubIdx k sep = none) : splitChars (sep ++ k) sep = [[], k] := by
  unfold splitChars
  rw [if_neg hsep]
  have hfirst : findSubIdx (sep ++ k) sep = some 0 := by
    unfold findSubIdx
    rw [if_pos (List.isPrefixOf_iff_prefix.mpr (List.prefix_append sep k))]
  simp only [splitCharsAux]
  rw [hfirst]
  show List.take 0 (sep ++ k) ::
      splitCharsAux (sep ++ k).length (List.drop (0 + sep.length) (sep ++ k)) sep = [[], k]
  rw [List.take_zero, Nat.zero_add, List.drop_left]
  rw [splitCharsAux_of_none hno]

theorem goStartsWith_append (p k : String) : goStartsWith (p ++ k) p = true := by
  unfold goStartsWith
  rw [String.data_append]
  exact List.isPrefixOf_iff_prefix.mpr (List.prefix_append _ _)

theorem string_append_cancel_left {p a b : String} (h : p ++ a = p ++ b) : a = b := by
  have hd := congrArg String.data h
  rw [String.data_append, String.data_append] at hd
  exact String.ext (List.append_cancel_left hd)

theorem string_mk_data (k : String) : String.mk k.data = k := by
  cases k
  rfl

theorem goSplit_sep_append (sep k : String) (hsep : sep.data ≠ [])
    (hno : findSubIdx k.data sep.data = none) :
    goSplit (sep ++ k) sep = ["", k] := by
  unfold goSplit
  rw [String.data_append, splitChars_sep_append hsep hno]
  simp [string_mk_data]

/-- extractTakeAlongLabel on a well-formed take-along key returns the
requested label name. -/
theorem extractTakeAlongLabel_wf {k : String} (hne : k ≠ "")
    (hno : findSubIdx k.data clusterTakeAlongKey.data = none) :
    extractTakeAlongLabel (clusterTakeAlongKey ++ k) = .ok k := by
  unfold extractTakeAlongLabel
  rw [if_pos (goStartsWith_append _ _)]
  rw [goSplit_sep_append _ _ (by decide) hno]
  simp [hne]

/-- On a malformed key that is exactly the take-along key, extraction
fails with the fixed message. -/
theorem extractTakeAlongLabel_malformed :
    extractTakeAlongLabel clusterTakeAlongKey =
      .error ("invalid take-along label, missing key after \x27/\x27: " ++
        clusterTakeAlongKey) := by
  decide

/-- Under one exact-prefix malformed key (all other keys fine), the first
loop of buildTakeAlongLabels aborts with the fixed message. -/
theorem extractAllTakeAlong_error {labels : Smap}
    (hmem : ∃ v, (clusterTakeAlongKey, v) ∈ labels)
    (hwf : ∀ p ∈ labels, p.fst ≠ clusterTakeAlongKey →
      ∃ r, extractTakeAlongLabel p.fst = .ok r) :
    extractAllTakeAlong labels =
      .error ("invalid take-along label, missing key after \x27/\x27: " ++
        clusterTakeAlongKey) := by
  induction labels with
  | nil => rcases hmem with ⟨v, hv⟩ ; simp at hv
  | cons p t ih =>
    by_cases hp : p.fst = clusterTakeAlongKey
    · unfold extractAllTakeAlong
      rw [hp, extractTakeAlongLabel_malformed]
    · rcases hwf p (by simp) hp with ⟨r, hr⟩
      unfold extractAllTakeAlong
      rw [hr]
      have hmem' : ∃ v, (clusterTakeAlongKey, v) ∈ t := by
        rcases hmem with ⟨v, hv⟩
        rcases List.mem_cons.mp hv with h1 | h1
        · exact absurd (congrArg Prod.fst h1.symm) hp
        · exact ⟨v, h1⟩
      rw [ih hmem' (fun q hq hqne => hwf q (List.mem_cons_of_mem _ hq) hqne)]

/-- C10: a take-along label key with an empty suffix makes
buildTakeAlongLabels abort: it returns the nil propagation map and the
single error message, discarding every other valid take-along request. -/
theorem C10_malformed_take_along_aborts (cluster : KCluster) (cfg : Config)
    (hauto : cfg.EnableAutoLabelCopy = false)
    (hmem : ∃ v, (clusterTakeAlongKey, v) ∈ cluster.labels)
    (hwf : ∀ p ∈ cluster.labels, p.fst ≠ clusterTakeAlongKey →
      ∃ r, extractTakeAlongLabel p.fst = .ok r) :
    buildTakeAlongLabels cluster cfg =
      (none, ["invalid take-along label, missing key after \x27/\x27: " ++
        clusterTakeAlongKey]) := by
  unfold buildTakeAlongLabels
  rw [hauto]
  simp only [Bool.false_eq_true, if_false]
  rw [extractAllTakeAlong_error hmem hwf]

/-- C10 witness: a cluster with one malformed take-along key and one valid
take-along request loses the valid propagation as well. -/
theorem C10_malformed_take_along_aborts_witness :
    buildTakeAlongLabels
        ⟨⟨"test", "test"⟩,
          [("take-along-label.capi-to-argocd.", ""), ("foo", "bar"),
            ("take-along-label.capi-to-argocd.foo", "")]⟩
        ⟨"argocd", [], false, false, false⟩ =
      (none, ["invalid take-along label, missing key after \x27/\x27: " ++
        clusterTakeAlongKey]) := by
  apply C10_malformed_take_along_aborts _ _ rfl ⟨"", by decide⟩
  intro p hp hne
  simp only [List.mem_cons, List.not_mem_nil, or_false] at hp
  rcases hp with h | h | h
  · exact absurd (by rw [h] ; decide) hne
  · exact ⟨"", by rw [h] ; decide⟩
  · exact ⟨"foo", by rw [h] ; decide⟩

/-- Keys that are not take-along keys extract to the empty name. -/
theorem extractTakeAlongLabel_other {key : String}
    (h : goStartsWith key clusterTakeAlongKey = false) :
    extractTakeAlongLabel key = .ok "" := by
  unfold extractTakeAlongLabel
  rw [h]
  rfl

theorem ne_of_goStartsWith {a b p : String} (ha : goStartsWith a p = true)
    (hb : goStartsWith b p = false) : a ≠ b := by
  intro h
  rw [h] at ha
  rw [ha] at hb
  exact absurd hb (by simp)

theorem append_ne_of_ne {p a b : String} (h : a ≠ b) : p ++ a ≠ p ++ b :=
  fun hc => h (string_append_cancel_left hc)

/-- The first loop, when every key extracts cleanly: it returns the list
of nonempty extracted names, containing the name of every take-along
request and drawing each entry from some label key. -/
theorem extractAllTakeAlong_ok (labels : Smap)
    (hall : ∀ p ∈ labels, ∃ r, extractTakeAlongLabel p.fst = .ok r) :
    ∃ req, extractAllTakeAlong labels = .ok req ∧
      (∀ p ∈ labels, ∀ r, extractTakeAlongLabel p.fst = .ok r → r ≠ "" → r ∈ req) ∧
      (∀ r ∈ req, r ≠ "" ∧ ∃ p ∈ labels, extractTakeAlongLabel p.fst = .ok r) := by
  induction labels with
  | nil => exact ⟨[], rfl, by simp, by simp⟩
  | cons p t ih =>
    rcases hall p (by simp) with ⟨r0, hr0⟩
    rcases ih (fun q hq => hall q (List.mem_cons_of_mem _ hq)) with ⟨reqt, hok, hmem, hsrc⟩
    refine ⟨if r0 ≠ "" then r0 :: reqt else reqt, ?_, ?_, ?_⟩
    · unfold extractAllTakeAlong
      rw [hr0, hok]
    · intro q hq r hr hrne
      rcases List.mem_cons.mp hq with h1 | h1
      · have : r = r0 := by
          rw [h1] at hr
          exact (Except.ok.inj (hr0.symm.trans hr)).symm
        subst this
        rw [if_pos hrne]
        exact List.mem_cons_self _ _
      · have := hmem q h1 r hr hrne
        by_cases h0 : r0 ≠ ""
        · rw [if_pos h0] ; exact List.mem_cons_of_mem _ this
        · rw [if_neg h0] ; exact this
    · intro r hr
      by_cases h0 : r0 ≠ ""
      · rw [if_pos h0] at hr
        rcases List.mem_cons.mp hr with h1 | h1
        · exact ⟨h1 ▸ h0, p, by simp, h1 ▸ hr0⟩
        · rcases hsrc r h1 with ⟨hne, q, hq, hextq⟩
          exact ⟨hne, q, List.mem_cons_of_mem _ hq, hextq⟩
      · rw [if_neg h0] at hr
        rcases hsrc r hr with ⟨hne, q, hq, hextq⟩
        exact ⟨hne, q, List.mem_cons_of_mem _ hq, hextq⟩

/-- Warnings only accumulate through the second loop. -/
theorem takeAlongFold_warn_pres (labels : Smap) (nm nsp : String) :
    ∀ (req : List String) (acc : Smap × List String) (x : String),
      x ∈ acc.snd → x ∈ (req.foldl (takeAlongStep labels nm nsp) acc).snd := by
  intro req
  induction req with
  | nil => intro acc x hx ; exact hx
  | cons l rest ih =>
    intro acc x hx
    rw [List.foldl_cons]
    apply ih
    unfold takeAlongStep
    by_cases hl : l ≠ ""
    · rw [if_pos hl]
      cases hfind : Smap.find labels l with
      | none => simpa using Or.inl hx
      | some v => exact hx
    · rw [if_neg hl] ; exact hx

/-- An absent requested label leaves its warning in the second loop. -/
theorem takeAlongFold_warn (labels : Smap) (nm nsp : String) :
    ∀ (req : List String) (acc : Smap × List String) (k : String),
      k ∈ req → k ≠ "" → Smap.find labels k = none →
      takeAlongWarning k nm nsp ∈ (req.foldl (takeAlongStep labels nm nsp) acc).snd := by
  intro req
  induction req with
  | nil => intro acc k hk ; simp at hk
  | cons l rest ih =>
    intro acc k hk hkne hkabs
    rw [List.foldl_cons]
    rcases List.mem_cons.mp hk with h1 | h1
    · subst h1
      apply takeAlongFold_warn_pres
      unfold takeAlongStep
      rw [if_pos hkne, hkabs]
      simp
    · exact ih _ k h1 hkne hkabs

/-- A propagated entry and its marker survive the rest of the second
loop. -/
theorem takeAlongFold_prop_pres (labels : Smap) (nm nsp : String) (k w : String)
    (hkm : goStartsWith k clusterTakenFromClusterKey = false)
    (hfindk : Smap.find labels k = some w) :
    ∀ (req : List String) (acc : Smap × List String),
      (∀ l ∈ req, goStartsWith l clusterTakenFromClusterKey = false) →
      Smap.find acc.fst k = some w →
      Smap.find acc.fst (clusterTakenFromClusterKey ++ k) = some "" →
      Smap.find (req.foldl (takeAlongStep labels nm nsp) acc).fst k = some w ∧
        Smap.find (req.foldl (takeAlongStep labels nm nsp) acc).fst
          (clusterTakenFromClusterKey ++ k) = some "" := by
  intro req
  induction req with
  | nil => intro acc _ h1 h2 ; exact ⟨h1, h2⟩
  | cons l rest ih =>
    intro acc hreqm h1 h2
    rw [List.foldl_cons]
    have hlm : goStartsWith l clusterTakenFromClusterKey = false := hreqm l (by simp)
    have hrest : ∀ x ∈ rest, goStartsWith x clusterTakenFromClusterKey = false :=
      fun x hx => hreqm x (List.mem_cons_of_mem _ hx)
    apply ih _ hrest
    · unfold takeAlongStep
      by_cases hl : l ≠ ""
      · rw [if_pos hl]
        cases hfind : Smap.find labels l with
        | none => exact h1
        | some v =>
          simp only
          have hmk : clusterTakenFromClusterKey ++ l ≠ k :=
            ne_of_goStartsWith (goStartsWith_append _ _) hkm
          rw [Smap.find_set_ne _ _ (fun hc => hmk hc.symm)]
          by_cases hlk : l = k
          · subst hlk
            rw [Smap.find_set_self]
            rw [hfind] at hfindk
            exact hfindk
          · rw [Smap.find_set_ne _ _ (fun hc => hlk hc.symm)]
            exact h1
      · rw [if_neg hl] ; exact h1
    · unfold takeAlongStep
      by_cases hl : l ≠ ""
      · rw [if_pos hl]
        cases hfind : Smap.find labels l with
        | none => exact h2
        | some v =>
          simp only
          by_cases hlk : l = k
          · subst hlk
            rw [Smap.find_set_self]
          · have hne2 : clusterTakenFromClusterKey ++ l ≠ clusterTakenFromClusterKey ++ k :=
              append_ne_of_ne hlk
            rw [Smap.find_set_ne _ _ (fun hc => hne2 hc.symm)]
            have hne3 : l ≠ clusterTakenFromClusterKey ++ k :=
              fun hc => absurd (hc ▸ hlm) (by simp [goStartsWith_append])
            rw [Smap.find_set_ne _ _ (fun hc => hne3 hc.symm)]
            exact h2
      · rw [if_neg hl] ; exact h2

/-- A present requested label ends up propagated with its marker. -/
theorem takeAlongFold_prop (labels : Smap) (nm nsp : String) (k w : String)
    (hkne : k ≠ "") (hkm : goStartsWith k clusterTakenFromClusterKey = false)
    (hfindk : Smap.find labels k = some w) :
    ∀ (req : List String) (acc : Smap × List String),
      (∀ l ∈ req, goStartsWith l clusterTakenFromClusterKey = false) →
      k ∈ req →
      Smap.find (req.foldl (takeAlongStep labels nm nsp) acc).fst k = some w ∧
        Smap.find (req.foldl (takeAlongStep labels nm nsp) acc).fst
          (clusterTakenFromClusterKey ++ k) = some "" := by
  intro req
  induction req with
  | nil => intro acc _ hk ; simp at hk
  | cons l rest ih =>
    intro acc hreqm hk
    rw [List.foldl_cons]
    have hrest : ∀ x ∈ rest, goStartsWith x clusterTakenFromClusterKey = false :=
      fun x hx => hreqm x (List.mem_cons_of_mem _ hx)
    by_cases hlk : l = k
    · subst hlk
      apply takeAlongFold_prop_pres labels nm nsp l w hkm hfindk rest _ hrest
      · unfold takeAlongStep
        rw [if_pos hkne, hfindk]
        simp only
        have hmk : clusterTakenFromClusterKey ++ l ≠ l :=
          ne_of_goStartsWith (goStartsWith_append _ _) hkm
        rw [Smap.find_set_ne _ _ (fun hc => hmk hc.symm), Smap.find_set_self]
      · unfold takeAlongStep
        rw [if_pos hkne, hfindk]
        simp only
        rw [Smap.find_set_self]
    · rcases List.mem_cons.mp hk with h1 | h1
      · exact absurd h1.symm hlk
      · exact ih _ hrest h1

/-- C8: in take-along mode, with every take-along key well formed, the
scan succeeds: each requested label present on the cluster is propagated
together with its taken-from marker, and each requested label absent from
the cluster only records its warning, leaving the rest of the
propagation intact. -/
theorem C8_take_along_tolerates_absent (cluster : KCluster) (cfg : Config)
    (hauto : cfg.EnableAutoLabelCopy = false)
    (hwf : ∀ p ∈ cluster.labels, goStartsWith p.fst clusterTakeAlongKey = true →
      ∃ k, p.fst = clusterTakeAlongKey ++ k ∧ k ≠ "" ∧
        findSubIdx k.data clusterTakeAlongKey.data = none ∧
        goStartsWith k clusterTakenFromClusterKey = false) :
    ∃ m, (buildTakeAlongLabels cluster cfg).fst = some m ∧
      (∀ k v w, (clusterTakeAlongKey ++ k, v) ∈ cluster.labels →
        Smap.find cluster.labels k = some w →
        Smap.find m k = some w ∧
          Smap.find m (clusterTakenFromClusterKey ++ k) = some "") ∧
      (∀ k v, (clusterTakeAlongKey ++ k, v) ∈ cluster.labels →
        Smap.find cluster.labels k = none →
        takeAlongWarning k cluster.nn.name cluster.nn.ns ∈
          (buildTakeAlongLabels cluster cfg).snd) := by
  have hall : ∀ p ∈ cluster.labels, ∃ r, extractTakeAlongLabel p.fst = .ok r := by
    intro p hp
    by_cases hpre : goStartsWith p.fst clusterTakeAlongKey = true
    · rcases hwf p hp hpre with ⟨k, hk, hkne, hkno, _⟩
      exact ⟨k, hk ▸ extractTakeAlongLabel_wf hkne hkno⟩
    · exact ⟨"", extractTakeAlongLabel_other (by simpa using hpre)⟩
  rcases extractAllTakeAlong_ok cluster.labels hall with ⟨req, hok, hmem, hsrc⟩
  have heq : buildTakeAlongLabels cluster cfg =
      (some (req.foldl (takeAlongStep cluster.labels cluster.nn.name cluster.nn.ns)
          (([] : Smap), ([] : List String))).fst,
        (req.foldl (takeAlongStep cluster.labels cluster.nn.name cluster.nn.ns)
          (([] : Smap), ([] : List String))).snd) := by
    unfold buildTakeAlongLabels
    rw [hauto]
    simp only [Bool.false_eq_true, if_false]
    rw [hok]
  have hreqm : ∀ l ∈ req, goStartsWith l clusterTakenFromClusterKey = false := by
    intro l hl
    rcases hsrc l hl with ⟨hlne, q, hq, hext⟩
    have hqpre : goStartsWith q.fst clusterTakeAlongKey = true := by
      by_contra hc
      rw [extractTakeAlongLabel_other (by simpa using hc)] at hext
      exact hlne (Except.ok.inj hext).symm
    rcases hwf q hq hqpre with ⟨k, hk, hkne, hkno, hkm⟩
    have : l = k := by
      rw [hk] at hext
      rw [extractTakeAlongLabel_wf hkne hkno] at hext
      exact (Except.ok.inj hext).symm
    exact this ▸ hkm
  have hprops : ∀ k v, (clusterTakeAlongKey ++ k, v) ∈ cluster.labels →
      k ≠ "" ∧ findSubIdx k.data clusterTakeAlongKey.data = none ∧
        goStartsWith k clusterTakenFromClusterKey = false ∧ k ∈ req := by
    intro k v hkv
    rcases hwf _ hkv (goStartsWith_append _ _) with ⟨k', hk', hkne', hkno', hkm'⟩
    have hkk : k = k' := string_append_cancel_left hk'
    subst hkk
    refine ⟨hkne', hkno', hkm', ?_⟩
    exact hmem _ hkv k (extractTakeAlongLabel_wf hkne' hkno') hkne'
  refine ⟨_, by rw [heq], ?_, ?_⟩
  · intro k v w hkv hfind
    rcases hprops k v hkv with ⟨hkne, _, hkm, hkreq⟩
    exact takeAlongFold_prop cluster.labels cluster.nn.name cluster.nn.ns k w
      hkne hkm hfind req _ hreqm hkreq
  · intro k v hkv habs
    rcases hprops k v hkv with ⟨hkne, _, _, hkreq⟩
    rw [heq]
    exact takeAlongFold_warn cluster.labels cluster.nn.name cluster.nn.ns req _ k
      hkreq hkne habs

/-- C8 witness. -/
theorem C8_take_along_tolerates_absent_witness :
    (buildTakeAlongLabels
        ⟨⟨"test", "test"⟩,
          [("foo", "bar"), ("take-along-label.capi-to-argocd.foo", ""),
            ("take-along-label.capi-to-argocd.missing", "")]⟩
        ⟨"argocd", [], false, false, false⟩).fst =
      some [("foo", "bar"), ("taken-from-cluster-label.capi-to-argocd.foo", "")] ∧
    takeAlongWarning "missing" "test" "test" ∈
      (buildTakeAlongLabels
        ⟨⟨"test", "test"⟩,
          [("foo", "bar"), ("take-along-label.capi-to-argocd.foo", ""),
            ("take-along-label.capi-to-argocd.missing", "")]⟩
        ⟨"argocd", [], false, false, false⟩).snd := by
  have h := C8_take_along_tolerates_absent
    ⟨⟨"test", "test"⟩,
      [("foo", "bar"), ("take-along-label.capi-to-argocd.foo", ""),
        ("take-along-label.capi-to-argocd.missing", "")]⟩
    ⟨"argocd", [], false, false, false⟩ rfl
    (by
      intro p hp hpre
      simp only [List.mem_cons, List.not_mem_nil, or_false] at hp
      rcases hp with h | h | h
      · subst h ; exact absurd hpre (by decide)
      · subst h ; exact ⟨"foo", by decide, by decide, by decide, by decide⟩
      · subst h ; exact ⟨"missing", by decide, by decide, by decide, by decide⟩)
  rcases h with ⟨m, hm, hprop, hwarn⟩
  constructor
  · decide
  · exact hwarn "missing" "" (by decide) (by decide)

/-! ## Helper lemmas on the store operations -/

theorem mem_replaceFirst_of_ne {l : List KSecret} {old new r : KSecret}
    (hr : r ∈ l) (hne : r ≠ old) : r ∈ replaceFirst l old new := by
  induction l with
  | nil => simp at hr
  | cons h t ih =>
    unfold replaceFirst
    by_cases hh : h = old
    · rw [if_pos hh]
      rcases List.mem_cons.mp hr with h1 | h1
      · exact absurd (h1.trans hh) hne
      · exact List.mem_cons_of_mem _ h1
    · rw [if_neg hh]
      rcases List.mem_cons.mp hr with h1 | h1
      · exact h1 ▸ List.mem_cons_self _ _
      · exact List.mem_cons_of_mem _ (ih h1)

theorem matchesSourceLabels_spec {cfg : Config} {n : NN} {r : KSecret}
    (h : matchesSourceLabels cfg n r = true) :
    r.nn.ns = cfg.ArgoNamespace ∧
      Smap.find r.labels "capi-to-argocd/cluster-secret-name" = some n.name ∧
      Smap.find r.labels "capi-to-argocd/cluster-namespace" = some n.ns := by
  unfold matchesSourceLabels at h
  simp only [Bool.and_eq_true, beq_iff_eq] at h
  exact ⟨h.1.1, h.1.2, h.2⟩

theorem deleteArgoSecretByLabels_mem {cfg : Config} {store : Store} {n : NN}
    {r : KSecret} (hr : r ∈ store.secrets) :
    r ∈ (deleteArgoSecretByLabels cfg store n).fst.secrets ∨
      matchesSourceLabels cfg n r = true := by
  unfold deleteArgoSecretByLabels
  cases hf : store.secrets.filter (matchesSourceLabels cfg n) with
  | nil => exact Or.inl hr
  | cons v rest =>
    by_cases hrv : r = v
    · right
      subst hrv
      have : r ∈ store.secrets.filter (matchesSourceLabels cfg n) := by
        rw [hf]
        exact List.mem_cons_self _ _
      exact (List.mem_filter.mp this).2
    · left
      simp only
      exact (List.mem_erase_of_ne hrv).mpr hr

/-- C1 counterexample: the garbage-collection delete path removes an
existing target record that matches the source-linkage labels even though
it does not carry the ownership label. -/
theorem C1_counterexample :
    ValidateObjectOwner unownedTarget = false ∧
    (Reconcile gcCfg fixDecode ⟨"c1-kubeconfig", "ns1"⟩ ⟨[unownedTarget], []⟩).deleted =
      [unownedTarget] ∧
    (Reconcile gcCfg fixDecode ⟨"c1-kubeconfig", "ns1"⟩ ⟨[unownedTarget], []⟩).store.secrets =
      [] := by
  refine ⟨by decide, by decide, by decide⟩

/-- C1 amended: an existing record without the ownership label is never
mutated — it survives every reconciliation pass unchanged — unless it
matches both source-linkage labels in the Argo namespace, in which case
the delete path (which checks no ownership) may remove it. -/
theorem C1_ownership_guard_amended (cfg : Config) (decode : Decode) (req : NN)
    (store : Store) (r : KSecret) (hr : r ∈ store.secrets)
    (hun : Smap.find r.labels "capi-to-argocd/owned" ≠ some "true") :
    r ∈ (Reconcile cfg decode req store).store.secrets ∨
      (r.nn.ns = cfg.ArgoNamespace ∧
        Smap.find r.labels "capi-to-argocd/cluster-secret-name" = some req.name ∧
        Smap.find r.labels "capi-to-argocd/cluster-namespace" = some req.ns) := by
  have hdel : ∀ st : Store, r ∈ st.secrets →
      r ∈ (deleteArgoSecretByLabels cfg st req).fst.secrets ∨
        (r.nn.ns = cfg.ArgoNamespace ∧
          Smap.find r.labels "capi-to-argocd/cluster-secret-name" = some req.name ∧
          Smap.find r.labels "capi-to-argocd/cluster-namespace" = some req.ns) := by
    intro st hst
    rcases deleteArgoSecretByLabels_mem hst with h | h
    · exact Or.inl h
    · exact Or.inr (matchesSourceLabels_spec h)
  unfold Reconcile
  dsimp only
  split
  · exact Or.inl hr
  · split
    · split
      · exact hdel store hr
      · exact Or.inl hr
    · split
      · exact Or.inl hr
      · split
        · exact Or.inl hr
        · split
          · exact Or.inl hr
          · split
            · exact hdel store hr
            · split
              · exact Or.inl hr
              · split
                · exact Or.inl (List.mem_append_left _ hr)
                · next existingSecret hex =>
                  split
                  · exact Or.inl hr
                  · next hown =>
                    split
                    · left
                      simp only
                      apply mem_replaceFirst_of_ne hr
                      intro hre
                      apply hun
                      have : ValidateObjectOwner existingSecret = true := by
                        rcases Bool.eq_false_or_eq_true (ValidateObjectOwner existingSecret)
                          with h1 | h1
                        · exact h1
                        · exact absurd h1 hown
                      unfold ValidateObjectOwner at this
                      rw [beq_iff_eq] at this
                      rw [hre]
                      exact this
                    · exact Or.inl hr

/-- C1 amended witness. -/
theorem C1_ownership_guard_amended_witness :
    unownedTarget ∈
        (Reconcile gcCfg fixDecode ⟨"other-kubeconfig", "ns2"⟩
          ⟨[unownedTarget], []⟩).store.secrets ∨
      (unownedTarget.nn.ns = gcCfg.ArgoNamespace ∧
        Smap.find unownedTarget.labels "capi-to-argocd/cluster-secret-name" =
          some "other-kubeconfig" ∧
        Smap.find unownedTarget.labels "capi-to-argocd/cluster-namespace" = some "ns2") :=
  C1_ownership_guard_amended gcCfg fixDecode ⟨"other-kubeconfig", "ns2"⟩
    ⟨[unownedTarget], []⟩ unownedTarget (by decide) (by decide)

/-- C3 counterexample: for a token-only descriptor the code emits
tlsClientConfig with an empty caData next to bearerToken, while the
claimed serialization omits the absent certificate fields entirely. -/
theorem C3_counterexample :
    (NewArgoCluster tokenCapi tokenSecret (some fixCluster) gcCfg).ClusterConfig.toJson =
      "\x7b\"tlsClientConfig\":\x7b\"caData\":\"\"\x7d,\"bearerToken\":\"tok\"\x7d" ∧
    argoConfigJsonSpec tokenCapi = "\x7b\"bearerToken\":\"tok\"\x7d" ∧
    (NewArgoCluster tokenCapi tokenSecret (some fixCluster) gcCfg).ClusterConfig.toJson ≠
      argoConfigJsonSpec tokenCapi := by
  refine ⟨by decide, by decide, by decide⟩

/-- C3 amended: in the built config blob, certData, keyData and
bearerToken are omitted exactly when absent, but tlsClientConfig is always
emitted and caData is always emitted inside it (as the empty string when
the CA blob is absent); a token principal does not suppress
tlsClientConfig. -/
theorem C3_config_blob_fields (c : CapiCluster) (s : KSecret) (cl : Option KCluster)
    (cfg : Config) :
    (NewArgoCluster c s cl cfg).ClusterConfig.toJson =
      "\x7b" ++
        jfield "tlsClientConfig"
          ("\x7b" ++
            joinComma
              ([jfield "caData"
                  (jstr (c.KubeConfig.Clusters.headD ⟨"", ⟨"", ""⟩⟩).Cluster.CaData)] ++
                ((c.KubeConfig.Users.headD ⟨"", ⟨none, none, none⟩⟩).User.CertData.map
                  (fun v => jfield "certData" (jstr v))).toList ++
                ((c.KubeConfig.Users.headD ⟨"", ⟨none, none, none⟩⟩).User.KeyData.map
                  (fun v => jfield "keyData" (jstr v))).toList) ++
            "\x7d") ++
        (match (c.KubeConfig.Users.headD ⟨"", ⟨none, none, none⟩⟩).User.Token with
          | some tok => "," ++ jfield "bearerToken" (jstr tok)
          | none => "") ++
        "\x7d" := by
  unfold NewArgoCluster ArgoConfig.toJson ArgoTLS.toJson
  simp only
  cases htok : (c.KubeConfig.Users.headD ⟨"", ⟨none, none, none⟩⟩).User.Token with
  | none =>
    simp [joinComma, String.append_assoc, String.append_empty]
  | some tok =>
    simp [joinComma, String.append_assoc, String.append_empty]

/-! ## C2: counterexample and branch characterizations of Reconcile -/

/-- C2 counterexample: with two target records matching the same
source-linkage labels, the garbage-collection path deletes one per pass,
so the second of two successive runs still issues a delete call. -/
theorem C2_counterexample :
    (Reconcile gcCfg fixDecode ⟨"c1-kubeconfig", "ns1"⟩
        ⟨[ownedTargetA, ownedTargetB], []⟩).deleted = [ownedTargetA] ∧
    (Reconcile gcCfg fixDecode ⟨"c1-kubeconfig", "ns1"⟩
        ((Reconcile gcCfg fixDecode ⟨"c1-kubeconfig", "ns1"⟩
          ⟨[ownedTargetA, ownedTargetB], []⟩).store)).deleted = [ownedTargetB] := by
  refine ⟨by decide, by decide⟩

theorem reconcile_eq_absent_gc_off {cfg : Config} {decode : Decode} {req : NN}
    {store : Store} (h1 : ValidateCapiNaming req = true)
    (h2 : findSecret store.secrets req = none)
    (h3 : cfg.EnableGarbageCollection = false) :
    Reconcile cfg decode req store = ⟨store, [], [], [], none, true⟩ := by
  unfold Reconcile
  rw [h1, h2, h3]
  rfl

theorem reconcile_eq_absent_gc_on {cfg : Config} {decode : Decode} {req : NN}
    {store : Store} (h1 : ValidateCapiNaming req = true)
    (h2 : findSecret store.secrets req = none)
    (h3 : cfg.EnableGarbageCollection = true) :
    Reconcile cfg decode req store =
      ⟨(deleteArgoSecretByLabels cfg store req).fst, [], [],
        (deleteArgoSecretByLabels cfg store req).snd, none, true⟩ := by
  unfold Reconcile
  rw [h1, h2, h3]
  rfl

theorem reconcile_eq_badtype {cfg : Config} {decode : Decode} {req : NN}
    {store : Store} {cs : KSecret} {e : CapiErr} (h1 : ValidateCapiNaming req = true)
    (h2 : findSecret store.secrets req = some cs)
    (h3 : ValidateCapiSecret cs = some e) :
    Reconcile cfg decode req store = ⟨store, [], [], [], some e, false⟩ := by
  unfold Reconcile
  rw [h1, h2]
  dsimp only
  rw [h3]
  rfl

theorem reconcile_eq_badkubeconfig {cfg : Config} {decode : Decode} {req : NN}
    {store : Store} {cs : KSecret} {e : CapiErr} (h1 : ValidateCapiNaming req = true)
    (h2 : findSecret store.secrets req = some cs)
    (h3 : ValidateCapiSecret cs = none)
    (h4 : (NewCapiCluster (goTrimSuffix req.name "-kubeconfig") req.ns).Unmarshal
      decode cs = .error e) :
    Reconcile cfg decode req store = ⟨store, [], [], [], some e, false⟩ := by
  simp [Reconcile, h1, h2, h3, h4]

theorem reconcile_eq_emptyclustername {cfg : Config} {decode : Decode} {req : NN}
    {store : Store} {cs : KSecret} {cc : CapiCluster}
    (h1 : ValidateCapiNaming req = true)
    (h2 : findSecret store.secrets req = some cs)
    (h3 : ValidateCapiSecret cs = none)
    (h4 : (NewCapiCluster (goTrimSuffix req.name "-kubeconfig") req.ns).Unmarshal
      decode cs = .ok cc)
    (h5 : (Smap.find cs.labels "cluster.x-k8s.io/cluster-name").getD "" = "") :
    Reconcile cfg decode req store = ⟨store, [], [], [], some .ErrOther, true⟩ := by
  simp [Reconcile, h1, h2, h3, h4, h5]

theorem reconcile_eq_clustergone {cfg : Config} {decode : Decode} {req : NN}
    {store : Store} {cs : KSecret} {cc : CapiCluster}
    (h1 : ValidateCapiNaming req = true)
    (h2 : findSecret store.secrets req = some cs)
    (h3 : ValidateCapiSecret cs = none)
    (h4 : (NewCapiCluster (goTrimSuffix req.name "-kubeconfig") req.ns).Unmarshal
      decode cs = .ok cc)
    (h5 : (Smap.find cs.labels "cluster.x-k8s.io/cluster-name").getD "" ≠ "")
    (h6 : findCluster store.clusters
      ⟨(Smap.find cs.labels "cluster.x-k8s.io/cluster-name").getD "", req.ns⟩ = none) :
    Reconcile cfg decode req store =
      ⟨(deleteArgoSecretByLabels cfg store req).fst, [], [],
        (deleteArgoSecretByLabels cfg store req).snd, none, true⟩ := by
  simp [Reconcile, h1, h2, h3, h4, h5, h6]

theorem reconcile_eq_ignored {cfg : Config} {decode : Decode} {req : NN}
    {store : Store} {cs : KSecret} {cc : CapiCluster} {clObj : KCluster}
    (h1 : ValidateCapiNaming req = true)
    (h2 : findSecret store.secrets req = some cs)
    (h3 : ValidateCapiSecret cs = none)
    (h4 : (NewCapiCluster (goTrimSuffix req.name "-kubeconfig") req.ns).Unmarshal
      decode cs = .ok cc)
    (h5 : (Smap.find cs.labels "cluster.x-k8s.io/cluster-name").getD "" ≠ "")
    (h6 : findCluster store.clusters
      ⟨(Smap.find cs.labels "cluster.x-k8s.io/cluster-name").getD "", req.ns⟩ =
        some clObj)
    (h7 : validateClusterIgnoreLabel (some clObj) = true) :
    Reconcile cfg decode req store = ⟨store, [], [], [], none, true⟩ := by
  simp [Reconcile, h1, h2, h3, h4, h5, h6, h7]

theorem reconcile_eq_create {cfg : Config} {decode : Decode} {req : NN}
    {store : Store} {cs : KSecret} {cc : CapiCluster} {clObj : KCluster}
    (h1 : ValidateCapiNaming req = true)
    (h2 : findSecret store.secrets req = some cs)
    (h3 : ValidateCapiSecret cs = none)
    (h4 : (NewCapiCluster (goTrimSuffix req.name "-kubeconfig") req.ns).Unmarshal
      decode cs = .ok cc)
    (h5 : (Smap.find cs.labels "cluster.x-k8s.io/cluster-name").getD "" ≠ "")
    (h6 : findCluster store.clusters
      ⟨(Smap.find cs.labels "cluster.x-k8s.io/cluster-name").getD "", req.ns⟩ =
        some clObj)
    (h7 : validateClusterIgnoreLabel (some clObj) = false)
    (h8 : findSecret store.secrets
      (NewArgoCluster cc cs (some clObj) cfg).NamespacedName = none) :
    Reconcile cfg decode req store =
      ⟨⟨store.secrets ++ [ConvertToSecret (NewArgoCluster cc cs (some clObj) cfg)],
          store.clusters⟩,
        [ConvertToSecret (NewArgoCluster cc cs (some clObj) cfg)], [], [], none, true⟩ := by
  simp [Reconcile, h1, h2, h3, h4, h5, h6, h7, h8]

theorem reconcile_eq_unowned {cfg : Config} {decode : Decode} {req : NN}
    {store : Store} {cs : KSecret} {cc : CapiCluster} {clObj : KCluster} {ex : KSecret}
    (h1 : ValidateCapiNaming req = true)
    (h2 : findSecret store.secrets req = some cs)
    (h3 : ValidateCapiSecret cs = none)
    (h4 : (NewCapiCluster (goTrimSuffix req.name "-kubeconfig") req.ns).Unmarshal
      decode cs = .ok cc)
    (h5 : (Smap.find cs.labels "cluster.x-k8s.io/cluster-name").getD "" ≠ "")
    (h6 : findCluster store.clusters
      ⟨(Smap.find cs.labels "cluster.x-k8s.io/cluster-name").getD "", req.ns⟩ =
        some clObj)
    (h7 : validateClusterIgnoreLabel (some clObj) = false)
    (h8 : findSecret store.secrets
      (NewArgoCluster cc cs (some clObj) cfg).NamespacedName = some ex)
    (h9 : ValidateObjectOwner ex = false) :
    Reconcile cfg decode req store = ⟨store, [], [], [], none, true⟩ := by
  simp [Reconcile, h1, h2, h3, h4, h5, h6, h7, h8, h9]

theorem reconcile_eq_sync {cfg : Config} {decode : Decode} {req : NN}
    {store : Store} {cs : KSecret} {cc : CapiCluster} {clObj : KCluster} {ex : KSecret}
    (h1 : ValidateCapiNaming req = true)
    (h2 : findSecret store.secrets req = some cs)
    (h3 : ValidateCapiSecret cs = none)
    (h4 : (NewCapiCluster (goTrimSuffix req.name "-kubeconfig") req.ns).Unmarshal
      decode cs = .ok cc)
    (h5 : (Smap.find cs.labels "cluster.x-k8s.io/cluster-name").getD "" ≠ "")
    (h6 : findCluster store.clusters
      ⟨(Smap.find cs.labels "cluster.x-k8s.io/cluster-name").getD "", req.ns⟩ =
        some clObj)
    (h7 : validateClusterIgnoreLabel (some clObj) = false)
    (h8 : findSecret store.secrets
      (NewArgoCluster cc cs (some clObj) cfg).NamespacedName = some ex)
    (h9 : ValidateObjectOwner ex = true) :
    Reconcile cfg decode req store =
      (if (syncSecret (NewArgoCluster cc cs (some clObj) cfg)
            (ConvertToSecret (NewArgoCluster cc cs (some clObj) cfg)) ex).snd then
        ⟨⟨replaceFirst store.secrets ex
            (syncSecret (NewArgoCluster cc cs (some clObj) cfg)
              (ConvertToSecret (NewArgoCluster cc cs (some clObj) cfg)) ex).fst,
            store.clusters⟩,
          [], [(syncSecret (NewArgoCluster cc cs (some clObj) cfg)
            (ConvertToSecret (NewArgoCluster cc cs (some clObj) cfg)) ex).fst], [],
          none, true⟩
      else ⟨store, [], [], [], none, true⟩) := by
  simp [Reconcile, h1, h2, h3, h4, h5, h6, h7, h8, h9]

/-! ## C2: store lookup preservation lemmas -/

theorem findSecret_some_nn {l : List KSecret} {n : NN} {m : KSecret}
    (h : findSecret l n = some m) : m.nn = n := by
  unfold findSecret at h
  have := List.find?_some h
  simpa [beq_iff_eq] using this

theorem findSecret_mem {l : List KSecret} {n : NN} {m : KSecret}
    (h : findSecret l n = some m) : m ∈ l :=
  List.mem_of_find?_eq_some h

theorem find?_replaceFirst_untouched {l : List KSecret} {old new : KSecret}
    {p : KSecret → Bool} (hold : p old = false) (hnew : p new = false) :
    List.find? p (replaceFirst l old new) = List.find? p l := by
  induction l with
  | nil => rfl
  | cons h t ih =>
    unfold replaceFirst
    by_cases hh : h = old
    · rw [if_pos hh]
      rw [List.find?_cons, List.find?_cons]
      rw [hnew, hh, hold]
    · rw [if_neg hh]
      rw [List.find?_cons, List.find?_cons]
      cases hp : p h with
      | true => rfl
      | false => exact ih

theorem find?_replaceFirst_self {l : List KSecret} {old new : KSecret}
    {p : KSecret → Bool} (h : List.find? p l = some old) (hnew : p new = true) :
    List.find? p (replaceFirst l old new) = some new := by
  induction l with
  | nil => simp at h
  | cons hd t ih =>
    rw [List.find?_cons] at h
    unfold replaceFirst
    cases hp : p hd with
    | true =>
      rw [hp] at h
      have hh : hd = old := by simpa using h
      rw [if_pos hh, List.find?_cons, hnew]
    | false =>
      rw [hp] at h
      have hpold : p old = true := List.find?_some h
      have hh : hd ≠ old := by
        intro he
        rw [he, hpold] at hp
        exact absurd hp (by simp)
      rw [if_neg hh, List.find?_cons, hp]
      exact ih h

theorem find?_erase_of_ne {l : List KSecret} {v m : KSecret} {p : KSecret → Bool}
    (h : List.find? p l = some m) (hne : v ≠ m) :
    List.find? p (l.erase v) = some m := by
  induction l with
  | nil => simp at h
  | cons hd t ih =>
    rw [List.find?_cons] at h
    rw [List.erase_cons]
    cases hp : p hd with
    | true =>
      rw [hp] at h
      have hm : hd = m := by simpa using h
      rw [if_neg (by simp [hm] ; exact fun he => hne he.symm)]
      rw [List.find?_cons, hp, hm]
    | false =>
      rw [hp] at h
      by_cases hv : hd = v
      · rw [if_pos (by simp [hv])]
        exact h
      · rw [if_neg (by simp [hv])]
        rw [List.find?_cons, hp]
        exact ih h

theorem findSecret_erase_none {l : List KSecret} {n : NN} {v : KSecret}
    (h : findSecret l n = none) : findSecret (l.erase v) n = none := by
  unfold findSecret at *
  rw [List.find?_eq_none] at *
  intro x hx
  exact h x ((l.erase_sublist v).mem hx)

theorem findSecret_append_some {l l2 : List KSecret} {n : NN} {m : KSecret}
    (h : findSecret l n = some m) : findSecret (l ++ l2) n = some m := by
  unfold findSecret at *
  rw [List.find?_append, h]
  rfl

theorem findSecret_append_new {l : List KSecret} {n : NN} {x : KSecret}
    (h : findSecret l n = none) (hx : x.nn = n) :
    findSecret (l ++ [x]) n = some x := by
  unfold findSecret at *
  rw [List.find?_append, h]
  simp [hx]

theorem findSecret_erase_self_none {l : List KSecret} {n : NN} {v : KSecret}
    (hwl : (l.map KSecret.nn).Nodup) (h : findSecret l n = some v) :
    findSecret (l.erase v) n = none := by
  have hvnn := findSecret_some_nn h
  have hvmem := findSecret_mem h
  unfold findSecret
  rw [List.find?_eq_none]
  intro x hx
  have hxl : x ∈ l := (l.erase_sublist v).mem hx
  simp only [beq_iff_eq]
  intro hxn
  have hxv : x = v := List.inj_on_of_nodup_map hwl hxl hvmem (hxn.trans hvnn.symm)
  have hnotin : x ∈ l.erase v → x ≠ v ∧ x ∈ l :=
    fun hh => ((List.Nodup.of_map _ hwl).mem_erase_iff).mp hh
  exact absurd hxv (hnotin hx).1

/-! ## C2: the derived Argo name never collides with the source name -/

theorem buildClusterName_ne (cfg : Config) (ns u : String) :
    "cluster-" ++ BuildClusterName u ns cfg ≠ u ++ "-kubeconfig" := by
  unfold BuildClusterName
  intro heq
  have hd := congrArg String.data heq
  by_cases h : cfg.EnableNamespacedNames
  · rw [if_pos h] at hd
    simp only [String.data_append] at hd
    have hcount := congrArg (List.count '-') hd
    simp only [List.count_append] at hcount
    have hc1 : List.count '-' "cluster-".data = 1 := by decide
    have hc2 : List.count '-' "-".data = 1 := by decide
    have hc3 : List.count '-' "-kubeconfig".data = 1 := by decide
    rw [hc1, hc2, hc3] at hcount
    omega
  · rw [if_neg h] at hd
    simp only [String.data_append] at hd
    have hcount := congrArg (List.count 'g') hd
    simp only [List.count_append] at hcount
    have hc1 : List.count 'g' "cluster-".data = 0 := by decide
    have hc2 : List.count 'g' "".data = 0 := by decide
    have hc3 : List.count 'g' "-kubeconfig".data = 1 := by decide
    rw [hc1, hc2, hc3] at hcount
    omega

theorem goTrimSuffix_append (u suf : String) : goTrimSuffix (u ++ suf) suf = u := by
  unfold goTrimSuffix
  rw [if_pos ((goEndsWith_iff _ _).mpr ⟨u, rfl⟩)]
  have hlen : (u ++ suf).data.length - suf.data.length = u.data.length := by
    rw [String.data_append, List.length_append]
    omega
  rw [hlen, String.data_append, List.take_left]

theorem newArgo_name_ne_req (cc : CapiCluster) (cs : KSecret) (clObj : KCluster)
    (cfg : Config) (req : NN) (hnn : cs.nn = req)
    (hname : ValidateCapiNaming req = true) :
    (NewArgoCluster cc cs (some clObj) cfg).NamespacedName.name ≠ req.name := by
  rcases ((goEndsWith_iff req.name "-kubeconfig").mp
    (by
      unfold ValidateCapiNaming at hname
      rw [Bool.and_eq_true] at hname
      exact hname.1)) with ⟨u, hu⟩
  have : (NewArgoCluster cc cs (some clObj) cfg).NamespacedName.name =
      "cluster-" ++ BuildClusterName u cs.nn.ns cfg := by
    show (BuildNamespacedName cs.nn.name cs.nn.ns cfg).name = _
    unfold BuildNamespacedName
    rw [hnn, hu, goTrimSuffix_append]
  rw [this, hu]
  exact buildClusterName_ne cfg cs.nn.ns u

/-! ## C2: the diff-and-converge block is clean on an in-sync record -/

theorem dataStep_find_self (d : Smap) (k v : String) (ch : Bool) :
    (Smap.find (dataStep d k v ch).fst k).getD "" = v := by
  unfold dataStep
  by_cases h : (Smap.find d k).getD "" = v
  · rw [if_pos h]
    exact h
  · rw [if_neg h]
    simp [Smap.find_set_self]

theorem dataStep_find_other (d : Smap) (k v : String) (ch : Bool) {k' : String}
    (hne : k' ≠ k) : Smap.find (dataStep d k v ch).fst k' = Smap.find d k' := by
  unfold dataStep
  by_cases h : (Smap.find d k).getD "" = v
  · rw [if_pos h]
  · rw [if_neg h]
    exact Smap.find_set_ne d v hne

theorem dataStep_eq_of_clean (d : Smap) (k v : String) (ch : Bool)
    (h : (Smap.find d k).getD "" = v) : dataStep d k v ch = (d, ch) := by
  unfold dataStep
  rw [if_pos h]

theorem takenKeys_fold_pres (x : String) :
    ∀ (ta : Smap) (acc : List String), x ∈ acc →
      x ∈ ta.foldl
        (fun acc p =>
          if goStartsWith p.fst clusterTakenFromClusterKey then
            acc ++ [takenKeySuffix p.fst]
          else acc)
        acc := by
  intro ta
  induction ta with
  | nil => intro acc hx ; exact hx
  | cons q t ih =>
    intro acc hx
    rw [List.foldl_cons]
    apply ih
    by_cases hq : goStartsWith q.fst clusterTakenFromClusterKey = true
    · rw [if_pos hq]
      exact List.mem_append_left _ hx
    · rw [if_neg hq]
      exact hx

theorem takenAlongKeysOf_mem {ta : Smap} {p : String × String} (hp : p ∈ ta)
    (hpre : goStartsWith p.fst clusterTakenFromClusterKey = true) :
    takenKeySuffix p.fst ∈ takenAlongKeysOf ta := by
  unfold takenAlongKeysOf
  suffices hgen : ∀ (l : Smap) (acc : List String), p ∈ l →
      takenKeySuffix p.fst ∈ l.foldl
        (fun acc q =>
          if goStartsWith q.fst clusterTakenFromClusterKey then
            acc ++ [takenKeySuffix q.fst]
          else acc)
        acc by
    exact hgen ta [] hp
  intro l
  induction l with
  | nil => intro acc hx ; simp at hx
  | cons q t ih =>
    intro acc hx
    rw [List.foldl_cons]
    rcases List.mem_cons.mp hx with h1 | h1
    · subst h1
      rw [if_pos hpre]
      exact takenKeys_fold_pres _ t _ (List.mem_append_right _ (by simp))
    · exact ih _ h1

theorem contains_of_mem {l : List String} {a : String} (h : a ∈ l) :
    l.contains a = true :=
  List.elem_iff.mpr h

theorem staleFold_id (ks : List String) :
    ∀ (l : Smap) (acc : Smap × Bool),
      (∀ p ∈ l, goStartsWith p.fst clusterTakenFromClusterKey = true →
        ks.contains (takenKeySuffix p.fst) = true) →
      l.foldl (staleStep ks) acc = acc := by
  intro l
  induction l with
  | nil => intro acc _ ; rfl
  | cons q t ih =>
    intro acc hl
    rw [List.foldl_cons]
    have hstep : staleStep ks acc q = acc := by
      unfold staleStep
      by_cases hq : goStartsWith q.fst clusterTakenFromClusterKey = true
      · rw [if_pos hq, if_pos (hl q (by simp) hq)]
      · rw [if_neg hq]
    rw [hstep]
    exact ih _ (fun p hp => hl p (List.mem_cons_of_mem _ hp))

theorem staleFold_no_bad (ks : List String) :
    ∀ (l : Smap) (acc : Smap × Bool),
      (∀ p ∈ acc.fst, goStartsWith p.fst clusterTakenFromClusterKey = true →
        ks.contains (takenKeySuffix p.fst) = false → p.fst ∈ l.map Prod.fst) →
      ∀ p ∈ (l.foldl (staleStep ks) acc).fst,
        goStartsWith p.fst clusterTakenFromClusterKey = true →
        ks.contains (takenKeySuffix p.fst) = true := by
  intro l
  induction l with
  | nil =>
    intro acc hinv p hp hpre
    cases hc : ks.contains (takenKeySuffix p.fst) with
    | true => rfl
    | false =>
      have := hinv p hp hpre hc
      simp at this
  | cons q t ih =>
    intro acc hinv p hp hpre
    rw [List.foldl_cons] at hp
    refine ih (staleStep ks acc q) ?_ p hp hpre
    intro r hr hrpre hrc
    unfold staleStep at hr
    by_cases hq : goStartsWith q.fst clusterTakenFromClusterKey = true
    · rw [if_pos hq] at hr
      by_cases hqc : ks.contains (takenKeySuffix q.fst) = true
      · rw [if_pos hqc] at hr
        have := hinv r hr hrpre hrc
        rcases (by simpa using this : r.fst = q.fst ∨ r.fst ∈ t.map Prod.fst) with h1 | h1
        · rw [h1] at hrc
          rw [hqc] at hrc
          exact absurd hrc (by simp)
        · exact h1
      · rw [if_neg hqc] at hr
        simp only at hr
        have hr1 := Smap.mem_erase hr
        have hr2 := Smap.mem_erase hr1.1
        have := hinv r hr2.1 hrpre hrc
        rcases (by simpa using this : r.fst = q.fst ∨ r.fst ∈ t.map Prod.fst) with h1 | h1
        · exact absurd h1 hr2.2
        · exact h1
    · rw [if_neg hq] at hr
      have := hinv r hr hrpre hrc
      rcases (by simpa using this : r.fst = q.fst ∨ r.fst ∈ t.map Prod.fst) with h1 | h1
      · rw [← h1] at hq
        exact absurd hrpre hq
      · exact h1

theorem mergeStep_mem {acc : Smap × Bool} {q p : String × String}
    (h : p ∈ (mergeStep acc q).fst) : p ∈ acc.fst ∨ p = q := by
  unfold mergeStep at h
  match hq : Smap.find acc.fst q.fst with
  | some val =>
    rw [hq] at h
    have h1 : p ∈ (if val ≠ q.snd then (Smap.set acc.fst q.fst q.snd, true) else acc).fst :=
      h
    by_cases hv : val ≠ q.snd
    · rw [if_pos hv] at h1
      rcases Smap.mem_set h1 with h2 | h2
      · exact Or.inl h2
      · exact Or.inr h2
    · rw [if_neg hv] at h1
      exact Or.inl h1
  | none =>
    rw [hq] at h
    have h1 : p ∈ (Smap.set acc.fst q.fst q.snd, true).fst := h
    rcases Smap.mem_set h1 with h2 | h2
    · exact Or.inl h2
    · exact Or.inr h2

theorem mergeStep_find_ne {acc : Smap × Bool} {q : String × String} {k : String}
    (hne : q.fst ≠ k) : Smap.find (mergeStep acc q).fst k = Smap.find acc.fst k := by
  unfold mergeStep
  match hq : Smap.find acc.fst q.fst with
  | some val =>
    by_cases hv : val ≠ q.snd
    · show Smap.find
        (if val ≠ q.snd then (Smap.set acc.fst q.fst q.snd, true) else acc).fst k = _
      rw [if_pos hv]
      exact Smap.find_set_ne _ _ (fun he => hne he.symm)
    · show Smap.find
        (if val ≠ q.snd then (Smap.set acc.fst q.fst q.snd, true) else acc).fst k = _
      rw [if_neg hv]
  | none =>
    show Smap.find (Smap.set acc.fst q.fst q.snd, true).fst k = _
    exact Smap.find_set_ne _ _ (fun he => hne he.symm)

theorem mergeStep_find_self {acc : Smap × Bool} {q : String × String} :
    Smap.find (mergeStep acc q).fst q.fst = some q.snd := by
  unfold mergeStep
  match hq : Smap.find acc.fst q.fst with
  | some val =>
    by_cases hv : val ≠ q.snd
    · show Smap.find
        (if val ≠ q.snd then (Smap.set acc.fst q.fst q.snd, true) else acc).fst q.fst = _
      rw [if_pos hv]
      exact Smap.find_set_self _ _ _
    · show Smap.find
        (if val ≠ q.snd then (Smap.set acc.fst q.fst q.snd, true) else acc).fst q.fst = _
      rw [if_neg hv, hq]
      simp only [ne_eq, Decidable.not_not] at hv
      rw [hv]
  | none =>
    show Smap.find (Smap.set acc.fst q.fst q.snd, true).fst q.fst = _
    exact Smap.find_set_self _ _ _

theorem mergeFold_mem :
    ∀ (ta : Smap) (acc : Smap × Bool) (p : String × String),
      p ∈ (ta.foldl mergeStep acc).fst → p ∈ acc.fst ∨ p ∈ ta := by
  intro ta
  induction ta with
  | nil => intro acc p hp ; exact Or.inl hp
  | cons q t ih =>
    intro acc p hp
    rw [List.foldl_cons] at hp
    rcases ih _ p hp with h1 | h1
    · rcases mergeStep_mem h1 with h2 | h2
      · exact Or.inl h2
      · exact Or.inr (by simp [h2])
    · exact Or.inr (List.mem_cons_of_mem _ h1)

theorem mergeFold_id :
    ∀ (ta : Smap) (m : Smap) (ch : Bool),
      (∀ p ∈ ta, Smap.find m p.fst = some p.snd) →
      ta.foldl mergeStep (m, ch) = (m, ch) := by
  intro ta
  induction ta with
  | nil => intro m ch _ ; rfl
  | cons q t ih =>
    intro m ch hta
    rw [List.foldl_cons]
    have hstep : mergeStep (m, ch) q = (m, ch) := by
      unfold mergeStep
      rw [hta q (by simp)]
      simp
    rw [hstep]
    exact ih m ch (fun p hp => hta p (List.mem_cons_of_mem _ hp))

theorem mergeFold_find_untouched {k : String} :
    ∀ (ta : Smap) (acc : Smap × Bool), (∀ q ∈ ta, q.fst ≠ k) →
      Smap.find (ta.foldl mergeStep acc).fst k = Smap.find acc.fst k := by
  intro ta
  induction ta with
  | nil => intro acc _ ; rfl
  | cons q t ih =>
    intro acc hta
    rw [List.foldl_cons]
    rw [ih _ (fun r hr => hta r (List.mem_cons_of_mem _ hr))]
    exact mergeStep_find_ne (hta q (by simp))

theorem mergeFold_find {ta : Smap} (hta : Smap.NodupKeys ta) :
    ∀ (acc : Smap × Bool) (p : String × String), p ∈ ta →
      Smap.find (ta.foldl mergeStep acc).fst p.fst = some p.snd := by
  induction ta with
  | nil => intro acc p hp ; simp at hp
  | cons q t ih =>
    intro acc p hp
    have htat : Smap.NodupKeys t := by
      unfold Smap.NodupKeys at hta ⊢
      rw [List.map_cons] at hta
      exact (List.nodup_cons.mp hta).2
    rw [List.foldl_cons]
    rcases List.mem_cons.mp hp with h1 | h1
    · subst h1
      have hknot : ∀ r ∈ t, r.fst ≠ p.fst := by
        intro r hr he
        unfold Smap.NodupKeys at hta
        rw [List.map_cons] at hta
        exact (List.nodup_cons.mp hta).1 (he ▸ List.mem_map.mpr ⟨r, hr, rfl⟩)
      rw [mergeFold_find_untouched t _ hknot]
      exact mergeStep_find_self
    · exact ih htat _ p h1

/-- The in-sync convergence lemma: on a record whose data equals the
desired data and whose labels carry no stale marker and all desired
take-along entries, the diff-and-converge block reports no change. -/
theorem syncSecret_clean (ac : ArgoCluster) (argoSecret e : KSecret)
    (hDa : (Smap.find e.data "name").getD "" = ac.ClusterName)
    (hDb : (Smap.find e.data "server").getD "" = ac.ClusterServer)
    (hDc : (Smap.find e.data "config").getD "" =
      (Smap.find argoSecret.data "config").getD "")
    (hLa : ∀ p ∈ e.labels, goStartsWith p.fst clusterTakenFromClusterKey = true →
      (takenAlongKeysOf ac.TakeAlongLabels).contains (takenKeySuffix p.fst) = true)
    (hLb : ∀ p ∈ ac.TakeAlongLabels, Smap.find e.labels p.fst = some p.snd) :
    syncSecret ac argoSecret e = (e, false) := by
  unfold syncSecret syncData syncLabels
  rw [dataStep_eq_of_clean _ _ _ _ hDa]
  dsimp only
  rw [dataStep_eq_of_clean _ _ _ _ hDb]
  dsimp only
  rw [dataStep_eq_of_clean _ _ _ _ hDc]
  dsimp only
  have hstale : staleScan e.labels (takenAlongKeysOf ac.TakeAlongLabels) false =
      (e.labels, false) := by
    unfold staleScan
    exact staleFold_id _ e.labels (e.labels, false) hLa
  rw [hstale]
  dsimp only
  have hmerge : mergeTakeAlong e.labels ac.TakeAlongLabels false = (e.labels, false) := by
    unfold mergeTakeAlong
    exact mergeFold_id ac.TakeAlongLabels e.labels false hLb
  rw [hmerge]

/-! ## C2: the created and the updated record are in sync -/

theorem foldl_setStep_mem :
    ∀ (l m0 : Smap) (p : String × String), p ∈ l.foldl setStep m0 → p ∈ m0 ∨ p ∈ l := by
  intro l
  induction l with
  | nil => intro m0 p hp ; exact Or.inl hp
  | cons q t ih =>
    intro m0 p hp
    rw [List.foldl_cons] at hp
    rcases ih _ p hp with h1 | h1
    · unfold setStep at h1
      rcases Smap.mem_set h1 with h2 | h2
      · exact Or.inl h2
      · exact Or.inr (by simp [h2])
    · exact Or.inr (List.mem_cons_of_mem _ h1)

theorem foldl_setStep_find_untouched {k : String} :
    ∀ (l : Smap) (m0 : Smap), (∀ q ∈ l, q.fst ≠ k) →
      Smap.find (l.foldl setStep m0) k = Smap.find m0 k := by
  intro l
  induction l with
  | nil => intro m0 _ ; rfl
  | cons q t ih =>
    intro m0 hl
    rw [List.foldl_cons]
    rw [ih _ (fun r hr => hl r (List.mem_cons_of_mem _ hr))]
    unfold setStep
    exact Smap.find_set_ne _ _ (fun he => (hl q (by simp)) he.symm)

theorem foldl_setStep_find {l : Smap} (hl : Smap.NodupKeys l) :
    ∀ (m0 : Smap) (p : String × String), p ∈ l →
      Smap.find (l.foldl setStep m0) p.fst = some p.snd := by
  induction l with
  | nil => intro m0 p hp ; simp at hp
  | cons q t ih =>
    intro m0 p hp
    have hlt : Smap.NodupKeys t := by
      unfold Smap.NodupKeys at hl ⊢
      rw [List.map_cons] at hl
      exact (List.nodup_cons.mp hl).2
    rw [List.foldl_cons]
    rcases List.mem_cons.mp hp with h1 | h1
    · subst h1
      have hknot : ∀ r ∈ t, r.fst ≠ p.fst := by
        intro r hr he
        unfold Smap.NodupKeys at hl
        rw [List.map_cons] at hl
        exact (List.nodup_cons.mp hl).1 (he ▸ List.mem_map.mpr ⟨r, hr, rfl⟩)
      rw [foldl_setStep_find_untouched t _ hknot]
      unfold setStep
      exact Smap.find_set_self _ _ _
    · exact ih hlt _ p h1

theorem foldl_autoCopyStep_nodup :
    ∀ (l m : Smap), Smap.NodupKeys m → Smap.NodupKeys (l.foldl autoCopyStep m) := by
  intro l
  induction l with
  | nil => intro m hm ; exact hm
  | cons q t ih =>
    intro m hm
    rw [List.foldl_cons]
    apply ih
    unfold autoCopyStep
    by_cases hq : goStartsWith q.fst "kubernetes.io/" ||
        goStartsWith q.fst "cluster.x-k8s.io/" || goStartsWith q.fst "capi-to-argocd/" ||
        goStartsWith q.fst clusterTakeAlongKey || q.fst == clusterIgnoreKey
    · rw [if_pos hq]
      exact hm
    · rw [if_neg hq]
      exact Smap.nodupKeys_set _ _ hm

theorem takeAlongFold_nodup (labels : Smap) (nm nsp : String) :
    ∀ (req : List String) (acc : Smap × List String), Smap.NodupKeys acc.fst →
      Smap.NodupKeys (req.foldl (takeAlongStep labels nm nsp) acc).fst := by
  intro req
  induction req with
  | nil => intro acc hacc ; exact hacc
  | cons l rest ih =>
    intro acc hacc
    rw [List.foldl_cons]
    apply ih
    unfold takeAlongStep
    by_cases hl : l ≠ ""
    · rw [if_pos hl]
      cases hf : Smap.find labels l with
      | none => exact hacc
      | some v => exact Smap.nodupKeys_set _ _ (Smap.nodupKeys_set _ _ hacc)
    · rw [if_neg hl]
      exact hacc

theorem newArgo_ta_nodup (cc : CapiCluster) (cs : KSecret) (cl : Option KCluster)
    (cfg : Config) : Smap.NodupKeys (NewArgoCluster cc cs cl cfg).TakeAlongLabels := by
  have hnil : Smap.NodupKeys ([] : Smap) := by
    unfold Smap.NodupKeys
    simp
  cases cl with
  | none => exact hnil
  | some c =>
    show Smap.NodupKeys (((buildTakeAlongLabels c cfg).fst).getD [])
    unfold buildTakeAlongLabels
    by_cases hauto : cfg.EnableAutoLabelCopy = true
    · rw [if_pos hauto]
      exact foldl_autoCopyStep_nodup _ _ hnil
    · rw [if_neg hauto]
      cases hex : extractAllTakeAlong c.labels with
      | error e => exact hnil
      | ok req =>
        simp only [Option.getD_some]
        exact takeAlongFold_nodup c.labels c.nn.name c.nn.ns req ([], []) hnil

theorem convert_data_name (a : ArgoCluster) :
    Smap.find (ConvertToSecret a).data "name" = some a.ClusterName := by
  simp [ConvertToSecret, Smap.find]

theorem convert_data_server (a : ArgoCluster) :
    Smap.find (ConvertToSecret a).data "server" = some a.ClusterServer := by
  simp [ConvertToSecret, Smap.find]

theorem convert_labels_mem (a : ArgoCluster) {p : String × String}
    (hp : p ∈ (ConvertToSecret a).labels) :
    p ∈ GetArgoCommonLabels ∨ p ∈ a.ClusterLabels ∨ p ∈ a.TakeAlongLabels := by
  have h1 := foldl_setStep_mem _ _ _ hp
  rcases h1 with h1 | h1
  · rcases foldl_setStep_mem _ _ _ h1 with h2 | h2
    · rcases foldl_setStep_mem _ _ _ h2 with h3 | h3
      · simp at h3
      · exact Or.inl h3
    · exact Or.inr (Or.inl h2)
  · exact Or.inr (Or.inr h1)

theorem convert_labels_ta_find (a : ArgoCluster)
    (hta : Smap.NodupKeys a.TakeAlongLabels) :
    ∀ p ∈ a.TakeAlongLabels, Smap.find (ConvertToSecret a).labels p.fst = some p.snd := by
  intro p hp
  exact foldl_setStep_find hta _ p hp

/-- A freshly created Argo secret diffs clean against its own
ArgoCluster. -/
theorem syncSecret_created (cc : CapiCluster) (cs : KSecret) (clObj : KCluster)
    (cfg : Config) :
    syncSecret (NewArgoCluster cc cs (some clObj) cfg)
      (ConvertToSecret (NewArgoCluster cc cs (some clObj) cfg))
      (ConvertToSecret (NewArgoCluster cc cs (some clObj) cfg)) =
      (ConvertToSecret (NewArgoCluster cc cs (some clObj) cfg), false) := by
  apply syncSecret_clean
  · rw [convert_data_name]
    rfl
  · rw [convert_data_server]
    rfl
  · rfl
  · intro p hp hpre
    rcases convert_labels_mem _ hp with h | h | h
    · rcases (by simpa [GetArgoCommonLabels] using h :
          p = ("capi-to-argocd/owned", "true") ∨
            p = ("argocd.argoproj.io/secret-type", "cluster")) with h1 | h1
      · have hk : p.fst = "capi-to-argocd/owned" := by rw [h1]
        rw [hk] at hpre
        exact absurd hpre (by decide)
      · have hk : p.fst = "argocd.argoproj.io/secret-type" := by rw [h1]
        rw [hk] at hpre
        exact absurd hpre (by decide)
    · have hcl : (NewArgoCluster cc cs (some clObj) cfg).ClusterLabels =
          [("capi-to-argocd/cluster-secret-name", cc.Name ++ "-kubeconfig"),
            ("capi-to-argocd/cluster-namespace", cc.Namespace)] := rfl
      rw [hcl] at h
      rcases (by simpa using h :
          p = ("capi-to-argocd/cluster-secret-name", cc.Name ++ "-kubeconfig") ∨
            p = ("capi-to-argocd/cluster-namespace", cc.Namespace)) with h1 | h1
      · have hk : p.fst = "capi-to-argocd/cluster-secret-name" := by rw [h1]
        rw [hk] at hpre
        exact absurd hpre (by decide)
      · have hk : p.fst = "capi-to-argocd/cluster-namespace" := by rw [h1]
        rw [hk] at hpre
        exact absurd hpre (by decide)
    · exact contains_of_mem (takenAlongKeysOf_mem h hpre)
  · exact convert_labels_ta_find _ (newArgo_ta_nodup cc cs (some clObj) cfg)

/-- The record written by the update path diffs clean on the next pass. -/
theorem syncSecret_idem (ac : ArgoCluster) (as ex : KSecret)
    (hta : Smap.NodupKeys ac.TakeAlongLabels) :
    syncSecret ac as (syncSecret ac as ex).fst = ((syncSecret ac as ex).fst, false) := by
  apply syncSecret_clean
  · show (Smap.find (syncData ac as ex.data).fst "name").getD "" = ac.ClusterName
    unfold syncData
    dsimp only
    rw [dataStep_find_other _ _ _ _ (by decide : ("name" : String) ≠ "config")]
    rw [dataStep_find_other _ _ _ _ (by decide : ("name" : String) ≠ "server")]
    exact dataStep_find_self _ _ _ _
  · show (Smap.find (syncData ac as ex.data).fst "server").getD "" = ac.ClusterServer
    unfold syncData
    dsimp only
    rw [dataStep_find_other _ _ _ _ (by decide : ("server" : String) ≠ "config")]
    exact dataStep_find_self _ _ _ _
  · show (Smap.find (syncData ac as ex.data).fst "config").getD "" =
      (Smap.find as.data "config").getD ""
    unfold syncData
    dsimp only
    exact dataStep_find_self _ _ _ _
  · intro p hp hpre
    have hp' : p ∈ (syncLabels ac ex.labels (syncData ac as ex.data).snd).fst := hp
    unfold syncLabels mergeTakeAlong at hp'
    dsimp only at hp'
    rcases mergeFold_mem _ _ p hp' with h1 | h1
    · refine staleFold_no_bad (takenAlongKeysOf ac.TakeAlongLabels) ex.labels
        (ex.labels, (syncData ac as ex.data).snd) ?_ p h1 hpre
      intro r hr _ _
      exact List.mem_map.mpr ⟨r, hr, rfl⟩
    · exact contains_of_mem (takenAlongKeysOf_mem h1 hpre)
  · intro p hp
    show Smap.find (syncLabels ac ex.labels (syncData ac as ex.data).snd).fst p.fst =
      some p.snd
    unfold syncLabels mergeTakeAlong
    dsimp only
    exact mergeFold_find hta _ p hp

theorem findSecret_replaceFirst_other {l : List KSecret} {old new : KSecret} {n : NN}
    (hold : old.nn ≠ n) (hnew : new.nn ≠ n) :
    findSecret (replaceFirst l old new) n = findSecret l n := by
  unfold findSecret
  refine find?_replaceFirst_untouched ?_ ?_
  · show (old.nn == n) = false
    rw [beq_eq_false_iff_ne]
    exact hold
  · show (new.nn == n) = false
    rw [beq_eq_false_iff_ne]
    exact hnew

theorem findSecret_replaceFirst_self {l : List KSecret} {old new : KSecret} {n : NN}
    (h : findSecret l n = some old) (hnew : new.nn = n) :
    findSecret (replaceFirst l old new) n = some new := by
  unfold findSecret at h ⊢
  refine find?_replaceFirst_self h ?_
  show (new.nn == n) = true
  rw [beq_iff_eq]
  exact hnew

theorem findSecret_erase_other {l : List KSecret} {v m : KSecret} {n : NN}
    (h : findSecret l n = some m) (hne : v ≠ m) :
    findSecret (l.erase v) n = some m := by
  unfold findSecret at h ⊢
  exact find?_erase_of_ne h hne

/-- C2 (amended): when no two records of the store share an identity and at
most one record matches the source-linkage labels of the request, running
Reconcile twice in succession with no external change between the runs
issues zero create, update and delete calls on the second run. -/
theorem C2_second_run_no_writes (cfg : Config) (decode : Decode) (req : NN)
    (store : Store) (hwf : SecretsWf store)
    (hone : (store.secrets.filter (matchesSourceLabels cfg req)).length ≤ 1) :
    (Reconcile cfg decode req (Reconcile cfg decode req store).store).created = [] ∧
      (Reconcile cfg decode req (Reconcile cfg decode req store).store).updated = [] ∧
      (Reconcile cfg decode req (Reconcile cfg decode req store).store).deleted = [] := by
  rcases Bool.eq_false_or_eq_true (ValidateCapiNaming req) with hnm | hnm
  case inr =>
    have hr : ∀ s : Store, Reconcile cfg decode req s = ⟨s, [], [], [], none, false⟩ := by
      intro s
      unfold Reconcile
      rw [if_pos hnm]
    rw [hr]
    exact ⟨rfl, rfl, rfl⟩
  case inl =>
  cases hfs : findSecret store.secrets req with
  | none =>
    rcases Bool.eq_false_or_eq_true cfg.EnableGarbageCollection with hgc | hgc
    case inl =>
      rw [reconcile_eq_absent_gc_on hnm hfs hgc]
      dsimp only
      cases hflt : store.secrets.filter (matchesSourceLabels cfg req) with
      | nil =>
        have hdel : deleteArgoSecretByLabels cfg store req = (store, []) := by
          unfold deleteArgoSecretByLabels
          rw [hflt]
        rw [hdel]
        dsimp only
        rw [reconcile_eq_absent_gc_on hnm hfs hgc, hdel]
        exact ⟨rfl, rfl, rfl⟩
      | cons v rest =>
        have hrest : rest = [] := by
          rw [hflt] at hone
          have hz : rest.length = 0 := by
            simp only [List.length_cons] at hone
            omega
          exact List.length_eq_zero.mp hz
        subst hrest
        have hdel : deleteArgoSecretByLabels cfg store req =
            (⟨store.secrets.erase v, store.clusters⟩, [v]) := by
          unfold deleteArgoSecretByLabels
          rw [hflt]
        rw [hdel]
        dsimp only
        have hfs2 : findSecret (store.secrets.erase v) req = none :=
          findSecret_erase_none hfs
        rw [@reconcile_eq_absent_gc_on cfg decode req
          ⟨store.secrets.erase v, store.clusters⟩ hnm hfs2 hgc]
        have hflt2 : (store.secrets.erase v).filter (matchesSourceLabels cfg req) = [] := by
          rw [← List.erase_filter, hflt]
          simp
        have hdel2 : deleteArgoSecretByLabels cfg
            ⟨store.secrets.erase v, store.clusters⟩ req =
            (⟨store.secrets.erase v, store.clusters⟩, []) := by
          unfold deleteArgoSecretByLabels
          dsimp only
          rw [hflt2]
        rw [hdel2]
        exact ⟨rfl, rfl, rfl⟩
    case inr =>
      rw [reconcile_eq_absent_gc_off hnm hfs hgc]
      dsimp only
      rw [reconcile_eq_absent_gc_off hnm hfs hgc]
      exact ⟨rfl, rfl, rfl⟩
  | some cs =>
    cases hval : ValidateCapiSecret cs with
    | some e =>
      rw [reconcile_eq_badtype hnm hfs hval]
      dsimp only
      rw [reconcile_eq_badtype hnm hfs hval]
      exact ⟨rfl, rfl, rfl⟩
    | none =>
      cases hum : (NewCapiCluster (goTrimSuffix req.name "-kubeconfig") req.ns).Unmarshal
          decode cs with
      | error e =>
        rw [reconcile_eq_badkubeconfig hnm hfs hval hum]
        dsimp only
        rw [reconcile_eq_badkubeconfig hnm hfs hval hum]
        exact ⟨rfl, rfl, rfl⟩
      | ok cc =>
        by_cases hcl : (Smap.find cs.labels "cluster.x-k8s.io/cluster-name").getD "" = ""
        · rw [reconcile_eq_emptyclustername hnm hfs hval hum hcl]
          dsimp only
          rw [reconcile_eq_emptyclustername hnm hfs hval hum hcl]
          exact ⟨rfl, rfl, rfl⟩
        · cases hfc : findCluster store.clusters
              ⟨(Smap.find cs.labels "cluster.x-k8s.io/cluster-name").getD "", req.ns⟩ with
          | none =>
            rw [reconcile_eq_clustergone hnm hfs hval hum hcl hfc]
            dsimp only
            cases hflt : store.secrets.filter (matchesSourceLabels cfg req) with
            | nil =>
              have hdel : deleteArgoSecretByLabels cfg store req = (store, []) := by
                unfold deleteArgoSecretByLabels
                rw [hflt]
              rw [hdel]
              dsimp only
              rw [reconcile_eq_clustergone hnm hfs hval hum hcl hfc, hdel]
              exact ⟨rfl, rfl, rfl⟩
            | cons v rest =>
              have hrest : rest = [] := by
                rw [hflt] at hone
                have hz : rest.length = 0 := by
                  simp only [List.length_cons] at hone
                  omega
                exact List.length_eq_zero.mp hz
              subst hrest
              have hdel : deleteArgoSecretByLabels cfg store req =
                  (⟨store.secrets.erase v, store.clusters⟩, [v]) := by
                unfold deleteArgoSecretByLabels
                rw [hflt]
              rw [hdel]
              dsimp only
              have hflt2 : (store.secrets.erase v).filter (matchesSourceLabels cfg req) =
                  [] := by
                rw [← List.erase_filter, hflt]
                simp
              have hdel2 : deleteArgoSecretByLabels cfg
                  ⟨store.secrets.erase v, store.clusters⟩ req =
                  (⟨store.secrets.erase v, store.clusters⟩, []) := by
                unfold deleteArgoSecretByLabels
                dsimp only
                rw [hflt2]
              by_cases hvcs : v = cs
              · have hfs2 : findSecret (store.secrets.erase v) req = none := by
                  subst hvcs
                  exact findSecret_erase_self_none hwf hfs
                rcases Bool.eq_false_or_eq_true cfg.EnableGarbageCollection with hgc | hgc
                · rw [@reconcile_eq_absent_gc_on cfg decode req
                    ⟨store.secrets.erase v, store.clusters⟩ hnm hfs2 hgc, hdel2]
                  exact ⟨rfl, rfl, rfl⟩
                · rw [@reconcile_eq_absent_gc_off cfg decode req
                    ⟨store.secrets.erase v, store.clusters⟩ hnm hfs2 hgc]
                  exact ⟨rfl, rfl, rfl⟩
              · have hfs2 : findSecret (store.secrets.erase v) req = some cs :=
                  findSecret_erase_other hfs hvcs
                rw [@reconcile_eq_clustergone cfg decode req
                  ⟨store.secrets.erase v, store.clusters⟩ cs cc hnm hfs2 hval hum hcl hfc,
                  hdel2]
                exact ⟨rfl, rfl, rfl⟩
          | some clObj =>
            cases hign : validateClusterIgnoreLabel (some clObj) with
            | true =>
              rw [reconcile_eq_ignored hnm hfs hval hum hcl hfc hign]
              dsimp only
              rw [reconcile_eq_ignored hnm hfs hval hum hcl hfc hign]
              exact ⟨rfl, rfl, rfl⟩
            | false =>
            cases hfas : findSecret store.secrets
                (NewArgoCluster cc cs (some clObj) cfg).NamespacedName with
            | none =>
              rw [reconcile_eq_create hnm hfs hval hum hcl hfc hign hfas]
              dsimp only
              have hfs2 : findSecret
                  (store.secrets ++ [ConvertToSecret (NewArgoCluster cc cs (some clObj) cfg)])
                  req = some cs := findSecret_append_some hfs
              have hfas2 : findSecret
                  (store.secrets ++ [ConvertToSecret (NewArgoCluster cc cs (some clObj) cfg)])
                  (NewArgoCluster cc cs (some clObj) cfg).NamespacedName =
                  some (ConvertToSecret (NewArgoCluster cc cs (some clObj) cfg)) :=
                findSecret_append_new hfas rfl
              rcases Bool.eq_false_or_eq_true
                  (ValidateObjectOwner
                    (ConvertToSecret (NewArgoCluster cc cs (some clObj) cfg))) with
                hown | hown
              · rw [@reconcile_eq_sync cfg decode req
                  ⟨store.secrets ++ [ConvertToSecret (NewArgoCluster cc cs (some clObj) cfg)],
                    store.clusters⟩ cs cc clObj
                  (ConvertToSecret (NewArgoCluster cc cs (some clObj) cfg))
                  hnm hfs2 hval hum hcl hfc hign hfas2 hown]
                rw [syncSecret_created cc cs clObj cfg]
                rw [if_neg (by simp)]
                exact ⟨rfl, rfl, rfl⟩
              · rw [@reconcile_eq_unowned cfg decode req
                  ⟨store.secrets ++ [ConvertToSecret (NewArgoCluster cc cs (some clObj) cfg)],
                    store.clusters⟩ cs cc clObj
                  (ConvertToSecret (NewArgoCluster cc cs (some clObj) cfg))
                  hnm hfs2 hval hum hcl hfc hign hfas2 hown]
                exact ⟨rfl, rfl, rfl⟩
            | some ex =>
              cases hown : ValidateObjectOwner ex with
              | true =>
                have hr1 := reconcile_eq_sync hnm hfs hval hum hcl hfc hign hfas hown
                cases hsy : (syncSecret (NewArgoCluster cc cs (some clObj) cfg)
                    (ConvertToSecret (NewArgoCluster cc cs (some clObj) cfg)) ex).snd with
                | false =>
                  have hns : ¬((syncSecret (NewArgoCluster cc cs (some clObj) cfg)
                      (ConvertToSecret (NewArgoCluster cc cs (some clObj) cfg)) ex).snd =
                        true) := by
                    simp [hsy]
                  rw [hr1, if_neg hns]
                  dsimp only
                  rw [hr1, if_neg hns]
                  exact ⟨rfl, rfl, rfl⟩
                | true =>
                  have hexnn : ex.nn =
                      (NewArgoCluster cc cs (some clObj) cfg).NamespacedName :=
                    findSecret_some_nn hfas
                  have hcsnn : cs.nn = req := findSecret_some_nn hfs
                  have hnename := newArgo_name_ne_req cc cs clObj cfg req hcsnn hnm
                  have hexne : ex.nn ≠ req := fun h =>
                    hnename (congrArg NN.name (hexnn.symm.trans h))
                  have hsynne : (syncSecret (NewArgoCluster cc cs (some clObj) cfg)
                      (ConvertToSecret (NewArgoCluster cc cs (some clObj) cfg)) ex).fst.nn ≠
                        req := hexne
                  rw [hr1, if_pos hsy]
                  dsimp only
                  have hfs2 : findSecret
                      (replaceFirst store.secrets ex
                        (syncSecret (NewArgoCluster cc cs (some clObj) cfg)
                          (ConvertToSecret (NewArgoCluster cc cs (some clObj) cfg)) ex).fst)
                      req = some cs := by
                    rw [findSecret_replaceFirst_other hexne hsynne]
                    exact hfs
                  have hfas2 : findSecret
                      (replaceFirst store.secrets ex
                        (syncSecret (NewArgoCluster cc cs (some clObj) cfg)
                          (ConvertToSecret (NewArgoCluster cc cs (some clObj) cfg)) ex).fst)
                      (NewArgoCluster cc cs (some clObj) cfg).NamespacedName =
                      some (syncSecret (NewArgoCluster cc cs (some clObj) cfg)
                        (ConvertToSecret (NewArgoCluster cc cs (some clObj) cfg)) ex).fst :=
                    findSecret_replaceFirst_self hfas hexnn
                  rcases Bool.eq_false_or_eq_true
                      (ValidateObjectOwner
                        (syncSecret (NewArgoCluster cc cs (some clObj) cfg)
                          (ConvertToSecret (NewArgoCluster cc cs (some clObj) cfg)) ex).fst)
                      with hown2 | hown2
                  · rw [@reconcile_eq_sync cfg decode req
                      ⟨replaceFirst store.secrets ex
                        (syncSecret (NewArgoCluster cc cs (some clObj) cfg)
                          (ConvertToSecret (NewArgoCluster cc cs (some clObj) cfg)) ex).fst,
                        store.clusters⟩ cs cc clObj
                      ((syncSecret (NewArgoCluster cc cs (some clObj) cfg)
                        (ConvertToSecret (NewArgoCluster cc cs (some clObj) cfg)) ex).fst)
                      hnm hfs2 hval hum hcl hfc hign hfas2 hown2]
                    rw [syncSecret_idem (NewArgoCluster cc cs (some clObj) cfg)
                      (ConvertToSecret (NewArgoCluster cc cs (some clObj) cfg)) ex
                      (newArgo_ta_nodup cc cs (some clObj) cfg)]
                    rw [if_neg (by simp)]
                    exact ⟨rfl, rfl, rfl⟩
                  · rw [@reconcile_eq_unowned cfg decode req
                      ⟨replaceFirst store.secrets ex
                        (syncSecret (NewArgoCluster cc cs (some clObj) cfg)
                          (ConvertToSecret (NewArgoCluster cc cs (some clObj) cfg)) ex).fst,
                        store.clusters⟩ cs cc clObj
                      ((syncSecret (NewArgoCluster cc cs (some clObj) cfg)
                        (ConvertToSecret (NewArgoCluster cc cs (some clObj) cfg)) ex).fst)
                      hnm hfs2 hval hum hcl hfc hign hfas2 hown2]
                    exact ⟨rfl, rfl, rfl⟩
              | false =>
                rw [reconcile_eq_unowned hnm hfs hval hum hcl hfc hign hfas hown]
                dsimp only
                rw [reconcile_eq_unowned hnm hfs hval hum hcl hfc hign hfas hown]
                exact ⟨rfl, rfl, rfl⟩

/-- Witness for C2: a concrete store, credential and configuration
satisfying both hypotheses. -/
theorem C2_second_run_no_writes_witness :
    SecretsWf ⟨[tokenSecret], [fixCluster]⟩ ∧
      ((Store.mk [tokenSecret] [fixCluster]).secrets.filter
        (matchesSourceLabels gcCfg ⟨"c1-kubeconfig", "ns1"⟩)).length ≤ 1 ∧
      ((Reconcile gcCfg fixDecode ⟨"c1-kubeconfig", "ns1"⟩
          (Reconcile gcCfg fixDecode ⟨"c1-kubeconfig", "ns1"⟩
            ⟨[tokenSecret], [fixCluster]⟩).store).created = [] ∧
        (Reconcile gcCfg fixDecode ⟨"c1-kubeconfig", "ns1"⟩
          (Reconcile gcCfg fixDecode ⟨"c1-kubeconfig", "ns1"⟩
            ⟨[tokenSecret], [fixCluster]⟩).store).updated = [] ∧
        (Reconcile gcCfg fixDecode ⟨"c1-kubeconfig", "ns1"⟩
          (Reconcile gcCfg fixDecode ⟨"c1-kubeconfig", "ns1"⟩
            ⟨[tokenSecret], [fixCluster]⟩).store).deleted = []) :=
  ⟨by unfold SecretsWf ; decide, by decide,
    C2_second_run_no_writes gcCfg fixDecode ⟨"c1-kubeconfig", "ns1"⟩
      ⟨[tokenSecret], [fixCluster]⟩ (by unfold SecretsWf ; decide) (by decide)⟩

end Caco
